import Mathlib

/-!
# The calculator of `src/script.js`

A shallow embedding of the class `Calculator`: its fields and the state of its two DOM
elements form a record, every method is a function on that record, and JavaScript numbers are
modelled as IEEE-754 binary64 values with round-to-nearest-even arithmetic, `parseFloat`,
`Number.prototype.toString`, `toExponential`, `toLocaleString` and `Math.round`.
The theorems at the end settle the claims made about the calculator, by claim number.
-/

namespace Calc

/-! ## JavaScript numbers: IEEE-754 binary64 -/

/-- A JavaScript Number. `fin neg m e` is the finite value `(-1)^neg * m * 2^e`,
kept in the canonical binary64 form: `m < 2^53`, `-1074 ≤ e ≤ 971`, and
`2^52 ≤ m` unless `e = -1074` (subnormals and the two zeros). -/
inductive Num where
  | nan : Num
  | inf (neg : Bool) : Num
  | fin (neg : Bool) (m : Nat) (e : Int) : Num
deriving DecidableEq, Repr

/-- Number of binary digits of `n`, by halving; `fuel` bounds the number of halvings. -/
def bitLenAux : Nat → Nat → Nat
  | 0, _ => 0
  | fuel + 1, n => if n = 0 then 0 else bitLenAux fuel (n / 2) + 1

/-- The least `k` with `n < 2^k`. -/
def bitLen (n : Nat) : Nat := bitLenAux n n

/-- Test `2^k ≤ n / d` for an integer `k` of either sign. -/
def geTwoPow (n d : Nat) (k : Int) : Bool :=
  if 0 ≤ k then decide (d * 2 ^ k.toNat ≤ n) else decide (d ≤ n * 2 ^ (-k).toNat)

/-- The integer `floor (log2 (n / d))` for positive `n` and `d`. -/
def floorLog2 (n d : Nat) : Int :=
  let k : Int := (bitLen n : Int) - (bitLen d : Int)
  if geTwoPow n d k then k else k - 1

/-- Round the non-negative rational `n / d` (with `d > 0`) to the nearest binary64 value,
ties to even, and give it the sign `neg`. Overflow gives an infinity. -/
def roundQ (neg : Bool) (n d : Nat) : Num :=
  if n = 0 then .fin neg 0 (-1074) else
  let s : Int := max (floorLog2 n d - 52) (-1074)
  let num := if s < 0 then n * 2 ^ (-s).toNat else n
  let den := if s < 0 then d else d * 2 ^ s.toNat
  let q := num / den
  let r := num % den
  let m := if den < 2 * r ∨ (2 * r = den ∧ q % 2 = 1) then q + 1 else q
  if m = 2 ^ 53 then (if 971 < s + 1 then .inf neg else .fin neg (2 ^ 52) (s + 1))
  else if 971 < s then .inf neg else .fin neg m s

/-- Numerator of the magnitude `m * 2^e` written as a fraction. -/
def magNum (m : Nat) (e : Int) : Nat := if 0 ≤ e then m * 2 ^ e.toNat else m

/-- Denominator of the magnitude `m * 2^e` written as a fraction. -/
def magDen (e : Int) : Nat := if 0 ≤ e then 1 else 2 ^ (-e).toNat


/-! ## Arithmetic -/

/-- Unary minus. -/
def Num.neg : Num → Num
  | .nan => .nan
  | .inf s => .inf (!s)
  | .fin s m e => .fin (!s) m e

/-- JavaScript `x + y`. -/
def Num.add : Num → Num → Num
  | .nan, _ => .nan
  | _, .nan => .nan
  | .inf s, .inf t => if s = t then .inf s else .nan
  | .inf s, .fin _ _ _ => .inf s
  | .fin _ _ _, .inf t => .inf t
  | .fin s m e, .fin t k f =>
    let g : Int := min e f
    let a : Nat := m * 2 ^ (e - g).toNat
    let b : Nat := k * 2 ^ (f - g).toNat
    if s = t then roundQ s (magNum (a + b) g) (magDen g)
    else if a = b then .fin false 0 (-1074)
    else if b < a then roundQ s (magNum (a - b) g) (magDen g)
    else roundQ t (magNum (b - a) g) (magDen g)

/-- JavaScript `x - y`. -/
def Num.sub (x y : Num) : Num := x.add y.neg

/-- JavaScript `x * y`. -/
def Num.mul : Num → Num → Num
  | .nan, _ => .nan
  | _, .nan => .nan
  | .inf s, .inf t => .inf (s != t)
  | .inf s, .fin t k _ => if k = 0 then .nan else .inf (s != t)
  | .fin s m _, .inf t => if m = 0 then .nan else .inf (s != t)
  | .fin s m e, .fin t k f => roundQ (s != t) (magNum (m * k) (e + f)) (magDen (e + f))

/-- JavaScript `x / y`. -/
def Num.div : Num → Num → Num
  | .nan, _ => .nan
  | _, .nan => .nan
  | .inf _, .inf _ => .nan
  | .inf s, .fin t _ _ => .inf (s != t)
  | .fin s _ _, .inf t => .fin (s != t) 0 (-1074)
  | .fin s m e, .fin t k f =>
    if k = 0 then (if m = 0 then .nan else .inf (s != t))
    else roundQ (s != t) (magNum m e * magDen f) (magDen e * magNum k f)

/-- Strict equality with zero, `x === 0`: true of both zeros. -/
def Num.isZero : Num → Bool
  | .fin _ m _ => m = 0
  | _ => false

/-- JavaScript `isNaN` on a Number. -/
def Num.isNaN : Num → Bool
  | .nan => true
  | _ => false

/-- JavaScript `isFinite` on a Number. -/
def Num.isFinite : Num → Bool
  | .fin _ _ _ => true
  | _ => false

/-- The test `Math.abs(x) > c` for a natural constant `c` (false for NaN). -/
def Num.absGt (x : Num) (c : Nat) : Bool :=
  match x with
  | .nan => false
  | .inf _ => true
  | .fin _ m e => decide (c * magDen e < magNum m e)

/-- The test `Math.abs(x) >= c` for a natural constant `c` (false for NaN). -/
def Num.absGe (x : Num) (c : Nat) : Bool :=
  match x with
  | .nan => false
  | .inf _ => true
  | .fin _ m e => decide (c * magDen e ≤ magNum m e)

/-- The Number with the value of the natural number `c` (rounded when not representable). -/
def Num.ofNat (c : Nat) : Num := roundQ false c 1

/-- JavaScript `Math.round`: the nearest integer, ties towards `+∞`; results in
`[-0.5, 0)` and `-0` give `-0`. -/
def Num.round : Num → Num
  | .nan => .nan
  | .inf s => .inf s
  | .fin s m e =>
    if 0 ≤ e then .fin s m e
    else
      let d : Nat := 2 ^ (-e).toNat
      if s then
        (if 2 * m ≤ d then .fin true 0 (-1074) else roundQ true ((2 * m + d - 1) / (2 * d)) 1)
      else roundQ false ((2 * m + d) / (2 * d)) 1


/-! ## Reading numbers: `parseFloat` -/

/-- White space and line terminators skipped by `parseFloat` at the start of its input. -/
def isStrWhiteSpace (c : Char) : Bool :=
  let n := c.toNat
  n = 9 || n = 10 || n = 11 || n = 12 || n = 13 || n = 32 || n = 160 || n = 5760 ||
  (8192 ≤ n && n ≤ 8202) || n = 8232 || n = 8233 || n = 8239 || n = 8287 || n = 12288 ||
  n = 65279

/-- The run of decimal digits at the start of the input, read as a natural number on top of
`acc`, with the number of digits read and the rest of the input. -/
def readDigits : List Char → Nat → Nat → Nat × Nat × List Char
  | [], acc, cnt => (acc, cnt, [])
  | c :: cs, acc, cnt =>
    if '0' ≤ c ∧ c ≤ '9' then readDigits cs (acc * 10 + (c.toNat - 48)) (cnt + 1)
    else (acc, cnt, c :: cs)

/-- The optional exponent part `e±ddd` at the start of the input; `0` when there is none. -/
def readExponent : List Char → Int
  | c :: cs =>
    if c = 'e' ∨ c = 'E' then
      match cs with
      | '+' :: ds => let r := readDigits ds 0 0; if r.2.1 = 0 then 0 else (r.1 : Int)
      | '-' :: ds => let r := readDigits ds 0 0; if r.2.1 = 0 then 0 else -(r.1 : Int)
      | ds => let r := readDigits ds 0 0; if r.2.1 = 0 then 0 else (r.1 : Int)
    else 0
  | [] => 0

/-- The Number with value `n * 10^x`. -/
def decimalToNum (neg : Bool) (n : Nat) (x : Int) : Num :=
  if 0 ≤ x then roundQ neg (n * 10 ^ x.toNat) 1 else roundQ neg n (10 ^ (-x).toNat)

/-- The longest prefix that is an unsigned `StrDecimalLiteral`, rounded to a Number;
`NaN` when no prefix is one. -/
def parseUnsigned (neg : Bool) (cs : List Char) : Num :=
  if "Infinity".data <+: cs then .inf neg else
  let ip := readDigits cs 0 0
  match ip.2.2 with
  | '.' :: rest =>
    let fp := readDigits rest ip.1 0
    if ip.2.1 = 0 ∧ fp.2.1 = 0 then .nan
    else decimalToNum neg fp.1 (readExponent fp.2.2 - (fp.2.1 : Int))
  | rest => if ip.2.1 = 0 then .nan else decimalToNum neg ip.1 (readExponent rest)

/-- JavaScript `parseFloat` on a string. -/
def parseFloat (s : String) : Num :=
  match s.data.dropWhile isStrWhiteSpace with
  | '+' :: cs => parseUnsigned false cs
  | '-' :: cs => parseUnsigned true cs
  | cs => parseUnsigned false cs

/-! ## Writing numbers -/

/-- The character of a decimal digit. -/
def digitChar (d : Nat) : Char :=
  match d with
  | 0 => '0' | 1 => '1' | 2 => '2' | 3 => '3' | 4 => '4'
  | 5 => '5' | 6 => '6' | 7 => '7' | 8 => '8' | _ => '9'

/-- Decimal digits of `n` in front of `acc`; `fuel` bounds the number of digits. -/
def natDigitsAux : Nat → Nat → List Char → List Char
  | 0, _, acc => acc
  | fuel + 1, n, acc =>
    if n < 10 then digitChar n :: acc else natDigitsAux fuel (n / 10) (digitChar (n % 10) :: acc)

/-- The decimal digits of `n`, most significant first, no leading zero. -/
def natDigits (n : Nat) : List Char := natDigitsAux (n + 1) n []

/-- Multiply the numerator of a fraction by `10^k` when `k ≥ 0`. -/
def scaleNum (n : Nat) (k : Int) : Nat := if 0 ≤ k then n * 10 ^ k.toNat else n

/-- Multiply the denominator of a fraction by `10^(-k)` when `k < 0`. -/
def scaleDen (d : Nat) (k : Int) : Nat := if 0 ≤ k then d else d * 10 ^ (-k).toNat

/-- First `j`, counting up from the start, with `n / d < 10^j`. -/
def decExpAux : Nat → Nat → Nat → Int → Int
  | 0, _, _, j => j
  | fuel + 1, n, d, j =>
    if scaleNum n (-j) < scaleDen d (-j) then j else decExpAux fuel n d (j + 1)

/-- The decimal exponent of the positive rational `n / d`: the `j` with
`10^(j-1) ≤ n / d < 10^j`. The search starts just below an estimate from the binary
logarithm. -/
def decExp (n d : Nat) : Int := decExpAux 4 n d (floorLog2 n d * 30103 / 100000 - 1)

/-- A `k`-digit decimal `s` with `s * 10^(j-k)` rounding to the positive Number `x` of exact
value `n / d` (decimal exponent `j`), if there is one: the one nearest to `n / d`, the even one
in a tie. The digit count may drop to one and the exponent go up by one when the digits
carry over to `10^k`. -/
def shortestAt (x : Num) (n d : Nat) (j : Int) (k : Nat) : Option (Nat × Int) :=
  let sh : Int := (k : Int) - j
  let num := scaleNum n sh
  let den := scaleDen d sh
  let lo := num / den
  let r := num % den
  let hi := lo + 1
  let okLo : Bool := roundQ false (scaleNum lo (-sh)) (scaleDen 1 (-sh)) = x
  let okHi : Bool := roundQ false (scaleNum hi (-sh)) (scaleDen 1 (-sh)) = x
  let pick : Option Nat :=
    if okLo && okHi then
      (if 2 * r < den then some lo else if den < 2 * r then some hi
       else if lo % 2 = 0 then some lo else some hi)
    else if okLo then some lo else if okHi then some hi else none
  match pick with
  | none => none
  | some s => if s = 10 ^ k then some (10 ^ (k - 1), j + 1) else some (s, j)

/-- Search for the least digit count, from `k` upwards. -/
def shortestAux : Nat → Num → Nat → Nat → Int → Nat → Nat × Int
  | 0, _, n, d, j, k => (scaleNum n ((k : Int) - j) / scaleDen d ((k : Int) - j), j)
  | fuel + 1, x, n, d, j, k =>
    match shortestAt x n d j k with
    | some r => r
    | none => shortestAux fuel x n d j (k + 1)

/-- The shortest decimal `(s, j)`, meaning `0.s * 10^j`, that reads back as the positive
Number `m * 2^e` (`Number::toString`, steps 5 onwards): at most 17 digits are needed. -/
def shortest (m : Nat) (e : Int) : Nat × Int :=
  shortestAux 17 (.fin false m e) (magNum m e) (magDen e) (decExp (magNum m e) (magDen e)) 1

/-- The exponent part `e+x` or `e-x` of a number in scientific notation. -/
def exponentPart (x : Int) : List Char :=
  'e' :: (if x < 0 then '-' else '+') :: natDigits x.natAbs

/-- Scientific notation: the first digit, a decimal point when more digits follow, the other
digits, and the exponent part. -/
def scientific (ds : List Char) (x : Int) : List Char :=
  match ds with
  | [] => exponentPart x
  | [c] => c :: exponentPart x
  | c :: cs => c :: '.' :: (cs ++ exponentPart x)

/-- Lay out the digits `ds` of a decimal `0.ds * 10^j` as `Number::toString` does. -/
def layoutDigits (ds : List Char) (j : Int) : List Char :=
  let k : Int := ds.length
  if k ≤ j ∧ j ≤ 21 then ds ++ List.replicate (j - k).toNat '0'
  else if 0 < j ∧ j ≤ 21 then ds.take j.toNat ++ '.' :: ds.drop j.toNat
  else if -6 < j ∧ j ≤ 0 then '0' :: '.' :: (List.replicate (-j).toNat '0' ++ ds)
  else scientific ds (j - 1)

/-- JavaScript `Number.prototype.toString()` with radix 10. -/
def Num.toJSString : Num → String
  | .nan => "NaN"
  | .inf false => "Infinity"
  | .inf true => "-Infinity"
  | .fin neg m e =>
    if m = 0 then "0"
    else
      let r := shortest m e
      ⟨(if neg then ['-'] else []) ++ layoutDigits (natDigits r.1) r.2⟩



/-- The digits `s` (there are `f + 1`) and the decimal exponent `x` of the positive Number
`m * 2^e` in `toExponential(f)`: `s * 10^(x-f)` is the decimal of that shape nearest to the
exact value, the larger one in a tie. -/
def exponentialDigits (m : Nat) (e : Int) (f : Nat) : Nat × Int :=
  let n := magNum m e
  let d := magDen e
  let j := decExp n d
  let sh : Int := (f : Int) - (j - 1)
  let num := scaleNum n sh
  let den := scaleDen d sh
  let q := if den ≤ 2 * (num % den) then num / den + 1 else num / den
  if q = 10 ^ (f + 1) then (10 ^ f, j) else (q, j - 1)

/-- JavaScript `Number.prototype.toExponential(f)`: one digit, `f` fraction digits and the
decimal exponent. -/
def Num.toExponential (x : Num) (f : Nat) : String :=
  match x with
  | .nan => "NaN"
  | .inf false => "Infinity"
  | .inf true => "-Infinity"
  | .fin neg m e =>
    if m = 0 then
      ⟨'0' :: ((if f = 0 then [] else '.' :: List.replicate f '0') ++ ['e', '+', '0'])⟩
    else
      let r := exponentialDigits m e f
      let ds := natDigits r.1
      ⟨(if neg then ['-'] else []) ++
        ((if f = 0 then ds else ds.take 1 ++ '.' :: ds.drop 1) ++ exponentPart r.2)⟩

/-- Commas between groups of three in a digit string given least significant digit first. -/
def groupRev : List Char → List Char
  | a :: b :: c :: rest =>
    match rest with
    | [] => [a, b, c]
    | _ :: _ => a :: b :: c :: ',' :: groupRev rest
  | l => l

/-- Thousands separators in a digit string. -/
def groupThousands (ds : List Char) : List Char := (groupRev ds.reverse).reverse

/-- JavaScript `x.toLocaleString('en-US', { maximumFractionDigits: 8 })` as ICU-based engines
compute it: the shortest decimal digits of `x` (those of `toString`), rounded half away from
zero to 8 fraction digits, trailing fraction zeros dropped, the integer part grouped in
threes with commas. -/
def Num.toLocaleString : Num → String
  | .nan => "NaN"
  | .inf false => "∞"
  | .inf true => "-∞"
  | .fin neg m e =>
    let sign := if neg then ['-'] else []
    if m = 0 then ⟨sign ++ ['0']⟩
    else
      let r := shortest m e
      let fd : Int := ((natDigits r.1).length : Int) - r.2
      let t : Nat :=
        if fd ≤ 8 then r.1 * 10 ^ (8 - fd).toNat
        else (r.1 + 5 * 10 ^ (fd - 9).toNat) / 10 ^ (fd - 8).toNat
      let fp := natDigits (t % 10 ^ 8)
      let frac := ((List.replicate (8 - fp.length) '0' ++ fp).reverse.dropWhile (· = '0')).reverse
      ⟨sign ++ groupThousands (natDigits (t / 10 ^ 8)) ++ (if frac = [] then [] else '.' :: frac)⟩



/-! ## The calculator (`src/script.js`)

Strings are Lean strings; their characters stand for the UTF-16 code units of the JavaScript
strings, which is exact for every text the calculator reads from its buttons and keys or
writes itself. The two DOM elements are kept as the three things the class touches: the text
of the display, the text of the expression line, and whether the display carries the CSS
class `error`. -/

/-- What the field `lastResult` can hold. -/
inductive JSValue where
  | null : JSValue
  | number (x : Num) : JSValue
  | string (s : String) : JSValue
deriving DecidableEq, Repr

/-- JavaScript `toString()` of a number or string value. -/
def JSValue.toJSString : JSValue → String
  | .null => "null"
  | .number x => x.toJSString
  | .string s => s

/-- The fields of a `Calculator` object together with the state of its two DOM elements. -/
structure Calculator where
  currentValue : String
  previousValue : String
  operation : Option String
  expression : String
  shouldResetDisplay : Bool
  lastResult : JSValue
  errorClass : Bool
  displayText : String
  expressionText : String
deriving DecidableEq, Repr

/-- JavaScript truthiness of `this.operation`: neither `null` nor the empty string. -/
def truthy : Option String → Bool
  | none => false
  | some s => decide (s ≠ "")

/-- Text of `this.operation` inside a template literal. -/
def opText : Option String → String
  | none => "null"
  | some s => s

/-- The method `formatNumber(num)`. -/
def formatNumber (num : String) : String :=
  let number := parseFloat num
  if number.isNaN then num
  else if number.absGe 1000 then number.toLocaleString
  else num

/-- The method `updateDisplay()`. -/
def Calculator.updateDisplay (c : Calculator) : Calculator :=
  { c with displayText := formatNumber c.currentValue, expressionText := c.expression }

/-- The state after `new Calculator()`: the field defaults, then `init()` which registers the
listeners and calls `updateDisplay()`. -/
def Calculator.constructor : Calculator :=
  Calculator.updateDisplay
    { currentValue := "0", previousValue := "", operation := none, expression := "",
      shouldResetDisplay := false, lastResult := .null, errorClass := false,
      displayText := "", expressionText := "" }

/-- The method `inputNumber(num)`. -/
def Calculator.inputNumber (c : Calculator) (num : String) : Calculator :=
  let c := { c with errorClass := false }
  Calculator.updateDisplay
    (if c.shouldResetDisplay then { c with currentValue := num, shouldResetDisplay := false }
     else if c.currentValue = "0" then { c with currentValue := num }
     else if c.currentValue.length < 12 then { c with currentValue := c.currentValue ++ num }
     else c)

/-- The method `inputDecimal()`. -/
def Calculator.inputDecimal (c : Calculator) : Calculator :=
  let c := { c with errorClass := false }
  Calculator.updateDisplay
    (if c.shouldResetDisplay then { c with currentValue := "0.", shouldResetDisplay := false }
     else if '.' ∈ c.currentValue.data then c
     else { c with currentValue := c.currentValue ++ "." })

/-- The method `handleError(message)`; the call of `console.error` only logs. -/
def Calculator.handleError (c : Calculator) (message : String) : Calculator :=
  Calculator.updateDisplay
    { c with currentValue := "Error", expression := message, errorClass := true,
             previousValue := "", operation := none, shouldResetDisplay := true }

/-- How the `switch` inside the `try` block of `calculate()` ends. -/
inductive Outcome where
  | returned : Outcome
  | thrown (message : String) : Outcome
  | value (result : Num) : Outcome
deriving DecidableEq, Repr

/-- The `switch (this.operation)` of `calculate()`. -/
def applyOperation (op : Option String) (prev current : Num) : Outcome :=
  if op = some "+" then .value (prev.add current)
  else if op = some "−" then .value (prev.sub current)
  else if op = some "×" then .value (prev.mul current)
  else if op = some "÷" then
    (if current.isZero then .thrown "Cannot divide by zero" else .value (prev.div current))
  else .returned

/-- The value `calculate()` keeps for a finite result: scientific notation with 5 fraction
digits (a string) above `1e12`, otherwise `Math.round(result * 1e10) / 1e10`. -/
def roundResult (result : Num) : JSValue :=
  if result.absGt (10 ^ 12) then .string (result.toExponential 5)
  else .number (((result.mul (Num.ofNat (10 ^ 10))).round).div (Num.ofNat (10 ^ 10)))

/-- The method `calculate()`. -/
def Calculator.calculate (c : Calculator) : Calculator :=
  if !truthy c.operation || c.previousValue = "" then c
  else
    match applyOperation c.operation (parseFloat c.previousValue) (parseFloat c.currentValue) with
    | .returned => c
    | .thrown message => (c.handleError message).updateDisplay
    | .value result =>
      if !result.isFinite then (c.handleError "Invalid calculation").updateDisplay
      else
        Calculator.updateDisplay
          { c with
            expression := formatNumber c.previousValue ++ " " ++ opText c.operation ++ " " ++
              formatNumber c.currentValue ++ " =",
            currentValue := (roundResult result).toJSString,
            lastResult := roundResult result,
            previousValue := "",
            operation := none,
            shouldResetDisplay := true }

/-- The method `setOperation(op)`. -/
def Calculator.setOperation (c : Calculator) (op : String) : Calculator :=
  let c := { c with errorClass := false }
  let c := if truthy c.operation && !c.shouldResetDisplay then c.calculate else c
  Calculator.updateDisplay
    { c with operation := some op, previousValue := c.currentValue,
             expression := formatNumber c.currentValue ++ " " ++ op,
             shouldResetDisplay := true }

/-- The method `percent()`. -/
def Calculator.percent (c : Calculator) : Calculator :=
  let num := parseFloat c.currentValue
  if num.isNaN then c
  else
    Calculator.updateDisplay
      { c with currentValue := (num.div (Num.ofNat 100)).toJSString, shouldResetDisplay := true }

/-- The method `clear()`. -/
def Calculator.clear (c : Calculator) : Calculator :=
  Calculator.updateDisplay
    { c with currentValue := "0", previousValue := "", operation := none, expression := "",
             shouldResetDisplay := false, errorClass := false }

/-- The method `delete()`: `slice(0, -1)` drops the last code unit. -/
def Calculator.delete (c : Calculator) : Calculator :=
  let c := { c with errorClass := false }
  Calculator.updateDisplay
    (if 1 < c.currentValue.length ∧ c.currentValue ≠ "0" then
       { c with currentValue := ⟨c.currentValue.data.dropLast⟩ }
     else { c with currentValue := "0" })

/-- The method `handleAction(action)`: the table of actions, nothing for any other name. -/
def Calculator.handleAction (c : Calculator) (action : String) : Calculator :=
  if action = "clear" then c.clear
  else if action = "delete" then c.delete
  else if action = "decimal" then c.inputDecimal
  else if action = "percent" then c.percent
  else if action = "add" then c.setOperation "+"
  else if action = "subtract" then c.setOperation "−"
  else if action = "multiply" then c.setOperation "×"
  else if action = "divide" then c.setOperation "÷"
  else if action = "equals" then c.calculate
  else c

/-- The method `handleKeyboard(e)` as a function of `e.key`; `preventDefault()` does not touch
the calculator. Strings compare by code units; `operationKeys` has the five keys listed, and
any other name it answers to leads `handleAction` to no action; only `"c"` and `"C"` have the
lower case `"c"`. -/
def Calculator.handleKeyboard (c : Calculator) (key : String) : Calculator :=
  let c := if c.currentValue = "Error" then c.clear else c
  let c := if ¬ key.data < "0".data ∧ ¬ "9".data < key.data then c.inputNumber key else c
  let c := if key = "." ∨ key = "," then c.inputDecimal else c
  let c :=
    if key = "+" then c.handleAction "add"
    else if key = "-" then c.handleAction "subtract"
    else if key = "*" then c.handleAction "multiply"
    else if key = "/" then c.handleAction "divide"
    else if key = "%" then c.handleAction "percent"
    else c
  let c := if key = "Enter" ∨ key = "=" then c.calculate else c
  let c := if key = "Backspace" then c.delete else c
  if key = "Escape" ∨ key = "c" ∨ key = "C" then c.clear else c

/-! ## Input events and reachable states -/

/-- The four operator buttons. -/
inductive Operator where
  | add | subtract | multiply | divide
deriving DecidableEq, Repr

/-- The symbol `handleAction` passes to `setOperation` for an operator button. -/
def Operator.symbol : Operator → String
  | .add => "+"
  | .subtract => "−"
  | .multiply => "×"
  | .divide => "÷"

/-- The string a digit button or digit key passes to `inputNumber`. -/
def digitString (d : Fin 10) : String := ⟨[digitChar d.val]⟩

/-- One input event: a digit, the decimal point, an operator, equals, percent, delete, clear. -/
inductive Event where
  | number (d : Fin 10)
  | decimal
  | operator (op : Operator)
  | equals
  | percent
  | delete
  | clear
deriving DecidableEq, Repr

/-- The method an event runs. -/
def Calculator.step (c : Calculator) : Event → Calculator
  | .number d => c.inputNumber (digitString d)
  | .decimal => c.inputDecimal
  | .operator op => c.setOperation op.symbol
  | .equals => c.calculate
  | .percent => c.percent
  | .delete => c.delete
  | .clear => c.clear

/-- The state after a sequence of events. -/
def Calculator.run (c : Calculator) (es : List Event) : Calculator := es.foldl Calculator.step c

/-- States the calculator can be in: the construction state and every state an event leads to
from one of them. -/
inductive Reachable : Calculator → Prop where
  | init : Reachable Calculator.constructor
  | step (c : Calculator) (e : Event) : Reachable c → Reachable (c.step e)

/-- Number of decimal points in a string. -/
def countDots (s : String) : Nat := s.data.count '.'

/-- The text the specification expects after typing digits into a fresh calculator: the digits
in order, without the zeros typed before the first non-zero digit, and `"0"` when every
digit typed is zero. -/
def enteredText (ds : List (Fin 10)) : String :=
  if ds.dropWhile (· = 0) = [] then "0"
  else ⟨(ds.dropWhile (· = 0)).map (fun d => digitChar d.val)⟩

/-- The decimal text of the integer `n`, or of `-n` when `neg` is set. -/
def integerText (neg : Bool) (n : Nat) : String :=
  ⟨(if neg then ['-'] else []) ++ natDigits n⟩

/-- A digit string with a comma after every digit that is followed by a positive multiple of
three digits: the digits grouped in threes from the right. -/
def commaSeparated : List Char → List Char
  | [] => []
  | c :: cs =>
    if cs.length % 3 = 0 ∧ cs ≠ [] then c :: ',' :: commaSeparated cs
    else c :: commaSeparated cs

/-- The text the specification expects for the integer `n` (or `-n`): its digits grouped in
threes with comma separators. -/
def groupedText (neg : Bool) (n : Nat) : String :=
  ⟨(if neg then ['-'] else []) ++ commaSeparated (natDigits n)⟩

/-! ## Theorems -/

theorem reachable_run (es : List Event) : Reachable (Calculator.constructor.run es) := by
  suffices h : ∀ c, Reachable c → Reachable (c.run es) from h _ Reachable.init
  induction es with
  | nil => intro c hc; exact hc
  | cons e es ih => intro c hc; exact ih _ (Reachable.step c e hc)

/-- C1, evaluated on the code: after the events `5 ÷ 0 +` the display carries the class
`error` although the operation is `+` and `previousValue` is `"Error"`; the state is
reachable. -/
theorem C1_error_flag_with_pending_operation :
    Reachable (Calculator.constructor.run
      [.number 5, .operator .divide, .number 0, .operator .add]) ∧
    (Calculator.constructor.run
      [.number 5, .operator .divide, .number 0, .operator .add]).errorClass = true ∧
    (Calculator.constructor.run
      [.number 5, .operator .divide, .number 0, .operator .add]).operation = some "+" ∧
    (Calculator.constructor.run
      [.number 5, .operator .divide, .number 0, .operator .add]).previousValue = "Error" :=
  ⟨reachable_run _, by decide!, by decide!, by decide!⟩

/-- C2: when the pending operation is `÷`, `previousValue` is not empty and `currentValue`
parses to zero, `calculate()` ends in the error state: `currentValue = "Error"`,
`expression = "Cannot divide by zero"`, the error class set, no operation, empty
`previousValue`, `shouldResetDisplay` true (and both texts on screen updated). -/
theorem C2_divide_by_zero (c : Calculator) (hop : c.operation = some "÷")
    (hprev : c.previousValue ≠ "") (hzero : (parseFloat c.currentValue).isZero = true) :
    c.calculate =
      { c with currentValue := "Error", expression := "Cannot divide by zero",
               errorClass := true, previousValue := "", operation := none,
               shouldResetDisplay := true, displayText := "Error",
               expressionText := "Cannot divide by zero" } := by
  have hfmt : formatNumber "Error" = "Error" := by decide!
  simp [Calculator.calculate, hop, hprev, truthy, applyOperation, hzero,
    Calculator.handleError, Calculator.updateDisplay, hfmt]

/-- C2 at `5 ÷ 0 =`: the state after `5 ÷ 0` meets the hypotheses, and `=` gives the error
state. -/
theorem C2_divide_by_zero_witness :
    (Calculator.constructor.run [.number 5, .operator .divide, .number 0]).calculate =
      { Calculator.constructor.run [.number 5, .operator .divide, .number 0] with
        currentValue := "Error", expression := "Cannot divide by zero",
        errorClass := true, previousValue := "", operation := none,
        shouldResetDisplay := true, displayText := "Error",
        expressionText := "Cannot divide by zero" } :=
  C2_divide_by_zero _ (by decide!) (by decide!) (by decide!)

theorem calculate_clear_errorClass (c : Calculator) :
    ({ c with errorClass := false } : Calculator).calculate.currentValue =
        c.calculate.currentValue ∧
    ({ c with errorClass := false } : Calculator).calculate.lastResult =
        c.calculate.lastResult := by
  unfold Calculator.calculate
  simp only []
  split_ifs
  · exact ⟨rfl, rfl⟩
  · split
    · exact ⟨rfl, rfl⟩
    · exact ⟨rfl, rfl⟩
    · split_ifs <;> exact ⟨rfl, rfl⟩

/-- C3: with an operation pending and `shouldResetDisplay` false, `setOperation(op2)` first
folds the pending operation as `calculate()` does and then records `operation = op2`,
`previousValue` = the folded result (the new `currentValue`) and `shouldResetDisplay = true`;
and the events `7 + 3 × 2 =` pass through `previousValue = "10"` with operation `×` and end
with `currentValue = "20"`. -/
theorem C3_set_operation_folds (c : Calculator) (op2 : String)
    (hop : truthy c.operation = true) (hreset : c.shouldResetDisplay = false) :
    ((c.setOperation op2).currentValue = c.calculate.currentValue ∧
     (c.setOperation op2).lastResult = c.calculate.lastResult ∧
     (c.setOperation op2).operation = some op2 ∧
     (c.setOperation op2).previousValue = c.calculate.currentValue ∧
     (c.setOperation op2).shouldResetDisplay = true) ∧
    ((Calculator.constructor.run
        [.number 7, .operator .add, .number 3, .operator .multiply]).previousValue = "10" ∧
     (Calculator.constructor.run
        [.number 7, .operator .add, .number 3, .operator .multiply]).operation = some "×" ∧
     (Calculator.constructor.run
        [.number 7, .operator .add, .number 3, .operator .multiply,
         .number 2, .equals]).currentValue = "20") := by
  refine ⟨?_, by decide!, by decide!, by decide!⟩
  obtain ⟨cv, pv, op, ex, sr, lr, ec, dt, et⟩ := c
  simp only at hop hreset
  subst hreset
  have h := calculate_clear_errorClass ⟨cv, pv, op, ex, false, lr, ec, dt, et⟩
  simp [Calculator.setOperation, Calculator.updateDisplay, hop, h.1, h.2]

/-- C3 at the state after `7 + 3`, pressing `×`. -/
theorem C3_set_operation_folds_witness :
    (((Calculator.constructor.run [.number 7, .operator .add, .number 3]).setOperation
        "×").currentValue =
        (Calculator.constructor.run [.number 7, .operator .add, .number 3]).calculate.currentValue ∧
     ((Calculator.constructor.run [.number 7, .operator .add, .number 3]).setOperation
        "×").lastResult =
        (Calculator.constructor.run [.number 7, .operator .add, .number 3]).calculate.lastResult ∧
     ((Calculator.constructor.run [.number 7, .operator .add, .number 3]).setOperation
        "×").operation = some "×" ∧
     ((Calculator.constructor.run [.number 7, .operator .add, .number 3]).setOperation
        "×").previousValue =
        (Calculator.constructor.run [.number 7, .operator .add, .number 3]).calculate.currentValue ∧
     ((Calculator.constructor.run [.number 7, .operator .add, .number 3]).setOperation
        "×").shouldResetDisplay = true) ∧
    ((Calculator.constructor.run
        [.number 7, .operator .add, .number 3, .operator .multiply]).previousValue = "10" ∧
     (Calculator.constructor.run
        [.number 7, .operator .add, .number 3, .operator .multiply]).operation = some "×" ∧
     (Calculator.constructor.run
        [.number 7, .operator .add, .number 3, .operator .multiply,
         .number 2, .equals]).currentValue = "20") :=
  C3_set_operation_folds _ "×" (by decide!) (by decide!)

/-- C4, evaluated on the code: after the events `5 ÷ 0 =` and delete the error class is off
and `currentValue` is `"Erro"`, which `parseFloat` reads as `NaN`; the state is reachable.
The Backspace key in the same error state gives `"0"`, because `handleKeyboard` clears an
error before it handles the key. -/
theorem C4_delete_in_error_state :
    Reachable (Calculator.constructor.run
      [.number 5, .operator .divide, .number 0, .equals, .delete]) ∧
    (Calculator.constructor.run
      [.number 5, .operator .divide, .number 0, .equals, .delete]).errorClass = false ∧
    (Calculator.constructor.run
      [.number 5, .operator .divide, .number 0, .equals, .delete]).currentValue = "Erro" ∧
    parseFloat "Erro" = Num.nan ∧
    ((Calculator.constructor.run
      [.number 5, .operator .divide, .number 0, .equals]).handleKeyboard
        "Backspace").currentValue = "0" :=
  ⟨reachable_run _, by decide!, by decide!, by decide!, by decide!⟩

/-- C5, evaluated on the code: typing `922337204 + 1` leaves `previousValue = "922337204"`,
`currentValue = "1"` and operation `+`, and `calculate()` then stores `"922337204.9999999"`,
not `"922337205"`: `Math.round(result * 1e10) / 1e10` rounds twice in binary floating point. -/
theorem C5_integer_sum_not_exact :
    (Calculator.constructor.run
      [.number 9, .number 2, .number 2, .number 3, .number 3, .number 7, .number 2, .number 0,
       .number 4, .operator .add, .number 1]).previousValue = "922337204" ∧
    (Calculator.constructor.run
      [.number 9, .number 2, .number 2, .number 3, .number 3, .number 7, .number 2, .number 0,
       .number 4, .operator .add, .number 1]).currentValue = "1" ∧
    (Calculator.constructor.run
      [.number 9, .number 2, .number 2, .number 3, .number 3, .number 7, .number 2, .number 0,
       .number 4, .operator .add, .number 1]).operation = some "+" ∧
    (Calculator.constructor.run
      [.number 9, .number 2, .number 2, .number 3, .number 3, .number 7, .number 2, .number 0,
       .number 4, .operator .add, .number 1]).calculate.currentValue = "922337204.9999999" :=
  ⟨by decide!, by decide!, by decide!, by decide!⟩

/-- C6 as stated fails: after `2 + 3 =`, `clear()` leaves `lastResult` at the number 5, not
at the `null` of the constructor. -/
theorem C6_clear_keeps_lastResult :
    (Calculator.constructor.run
      [.number 2, .operator .add, .number 3, .equals]).clear.lastResult =
        .number (Num.ofNat 5) ∧
    (Calculator.constructor.run
      [.number 2, .operator .add, .number 3, .equals]).clear ≠ Calculator.constructor :=
  ⟨by decide!, by decide!⟩

/-- C6, amended: `clear()` gives every field its construction value, `currentValue = "0"`,
empty `previousValue`, no operation, empty `expression`, `shouldResetDisplay` false, no
error class, and the texts on screen as after construction; `lastResult` alone keeps the
value it had. -/
theorem C6_clear_resets_all_but_lastResult (c : Calculator) :
    c.clear = { Calculator.constructor with lastResult := c.lastResult } := by
  simp [Calculator.clear, Calculator.constructor, Calculator.updateDisplay]

theorem digitChar_eq_zero (d : Fin 10) (h : digitChar d.val = '0') : d = 0 := by
  revert h; revert d; decide

theorem enteredText_length (ds : List (Fin 10)) :
    (enteredText ds).length ≤ max 1 ds.length := by
  unfold enteredText
  have := (List.dropWhile_sublist (l := ds) (fun d : Fin 10 => decide (d = 0))).length_le
  split_ifs
  · exact le_max_left _ _
  · simp only [String.length_mk, List.length_map]
    exact le_trans this (le_max_right _ _)

theorem enteredText_snoc (ds : List (Fin 10)) (d : Fin 10) :
    enteredText (ds ++ [d]) =
      if enteredText ds = "0" then digitString d else enteredText ds ++ digitString d := by
  unfold enteredText
  rw [List.dropWhile_append]
  by_cases h : ds.dropWhile (· = 0) = []
  · have h2 : (List.dropWhile (fun x => decide (x = 0)) ds).isEmpty = true := by simp [h]
    simp only [h2, h, if_true]
    by_cases hd : d = 0
    · subst hd; decide
    · simp [List.dropWhile, hd, digitString]
  · have h2 : (List.dropWhile (fun x => decide (x = 0)) ds).isEmpty = false := by
      simpa [List.isEmpty_iff] using h
    simp only [h2, h, if_false]
    have hne : (String.mk ((ds.dropWhile (· = 0)).map (fun d => digitChar d.val))) ≠ "0" := by
      intro hEq
      have hdata := congrArg String.data hEq
      have hhead := List.head_dropWhile_not (fun x : Fin 10 => decide (x = 0)) ds h
      cases ht : ds.dropWhile (· = 0) with
      | nil => exact h ht
      | cons a rest =>
        simp only [ht, List.head_cons, decide_eq_false_iff_not] at hhead
        rw [ht] at hdata
        have h0 : ("0" : String).data = ['0'] := rfl
        rw [h0] at hdata
        simp only [List.map_cons, List.cons.injEq] at hdata
        exact hhead (digitChar_eq_zero a hdata.1)
    simp [hne, digitString]
    rfl

theorem run_snoc (c : Calculator) (es : List Event) (e : Event) :
    c.run (es ++ [e]) = (c.run es).step e := by
  simp [Calculator.run, List.foldl_append]

theorem typed_digits_state (ds : List (Fin 10)) (h : ds.length ≤ 12) :
    (Calculator.constructor.run (ds.map Event.number)).shouldResetDisplay = false ∧
    (Calculator.constructor.run (ds.map Event.number)).currentValue = enteredText ds := by
  induction ds using List.reverseRecOn with
  | nil => exact ⟨rfl, rfl⟩
  | append_singleton ds d ih =>
    have hlen : ds.length < 12 := by
      simp only [List.length_append, List.length_singleton] at h
      omega
    obtain ⟨h1, h2⟩ := ih (le_of_lt hlen)
    have hl := enteredText_length ds
    have hl2 : (enteredText ds).length < 12 := by
      rcases le_max_iff.mp hl with h' | h' <;> omega
    rw [List.map_append, List.map_singleton, run_snoc, enteredText_snoc]
    simp only [Calculator.step, Calculator.inputNumber, Calculator.updateDisplay, h1, h2]
    by_cases h0 : enteredText ds = "0"
    · simp [h0]
    · simp [h0, hl2]

/-- C7: typing 1 to 12 digits one at a time into a fresh calculator leaves `currentValue` equal
to the digits typed, in order, where a `"0"` on the display is replaced by the next digit and
not kept in front of it: zeros typed before the first non-zero digit are dropped, and typing
only zeros gives `"0"`. -/
theorem C7_typed_digits (ds : List (Fin 10)) (_h1 : 1 ≤ ds.length) (h12 : ds.length ≤ 12) :
    (Calculator.constructor.run (ds.map Event.number)).currentValue = enteredText ds :=
  (typed_digits_state ds h12).2

/-- C7 at the twelve digits `0 0 7 0 4 1 2 3 4 5 6 7`: the display reads `"7041234567"`. -/
theorem C7_typed_digits_witness :
    (Calculator.constructor.run
      ([0, 0, 7, 0, 4, 1, 2, 3, 4, 5, 6, 7].map Event.number)).currentValue = "7041234567" :=
  C7_typed_digits [0, 0, 7, 0, 4, 1, 2, 3, 4, 5, 6, 7] (by decide) (by decide)

/-- C8 as stated fails: after typing the twelve digits `123456789012` and pressing `+`,
`currentValue` has length 12, and `inputNumber('5')` replaces it by `"5"`. -/
theorem C8_twelve_digits_replaced_after_operator :
    (Calculator.constructor.run
      (([1, 2, 3, 4, 5, 6, 7, 8, 9, 0, 1, 2].map Event.number) ++
        [.operator .add])).currentValue.length = 12 ∧
    ((Calculator.constructor.run
      (([1, 2, 3, 4, 5, 6, 7, 8, 9, 0, 1, 2].map Event.number) ++
        [.operator .add])).inputNumber "5").currentValue = "5" ∧
    ((Calculator.constructor.run
      (([1, 2, 3, 4, 5, 6, 7, 8, 9, 0, 1, 2].map Event.number) ++
        [.operator .add])).inputNumber "5").currentValue ≠
      (Calculator.constructor.run
        (([1, 2, 3, 4, 5, 6, 7, 8, 9, 0, 1, 2].map Event.number) ++
          [.operator .add])).currentValue :=
  ⟨by decide!, by decide!, by decide!⟩

/-- C8, amended: when `currentValue` has length 12 and `shouldResetDisplay` is false,
`inputNumber(d)` leaves `currentValue` unchanged, for every digit (indeed every string) `d`. -/
theorem C8_thirteenth_digit_dropped (c : Calculator) (d : String)
    (hlen : c.currentValue.length = 12) (hreset : c.shouldResetDisplay = false) :
    (c.inputNumber d).currentValue = c.currentValue := by
  have h0 : c.currentValue ≠ "0" := by
    intro h
    rw [h] at hlen
    exact absurd hlen (by decide)
  simp [Calculator.inputNumber, Calculator.updateDisplay, hreset, h0, hlen]

/-- C8 amended, at the state after typing `123456789012`: a thirteenth digit `5` changes
nothing. -/
theorem C8_thirteenth_digit_dropped_witness :
    ((Calculator.constructor.run
      ([1, 2, 3, 4, 5, 6, 7, 8, 9, 0, 1, 2].map Event.number)).inputNumber "5").currentValue =
      (Calculator.constructor.run
        ([1, 2, 3, 4, 5, 6, 7, 8, 9, 0, 1, 2].map Event.number)).currentValue :=
  C8_thirteenth_digit_dropped _ "5" (by decide!) (by decide!)

/-- C10: `inputDecimal()` is idempotent: a second call in a row changes no field of the state,
`currentValue` in particular. -/
theorem C10_inputDecimal_idempotent (c : Calculator) :
    c.inputDecimal.inputDecimal = c.inputDecimal := by
  have hdot : '.' ∈ ("0." : String).data := by decide
  unfold Calculator.inputDecimal
  by_cases hr : c.shouldResetDisplay = true
  · simp [hr, Calculator.updateDisplay, hdot]
  · by_cases hd : '.' ∈ c.currentValue.data
    · simp [hr, hd, Calculator.updateDisplay]
    · simp [hr, hd, Calculator.updateDisplay]

theorem digitChar_ne_dot (d : Nat) : digitChar d ≠ '.' := by
  unfold digitChar
  split <;> decide

theorem natDigitsAux_count_dot (fuel n : Nat) (acc : List Char) :
    (natDigitsAux fuel n acc).count '.' = acc.count '.' := by
  induction fuel generalizing n acc with
  | zero => rfl
  | succ fuel ih =>
    unfold natDigitsAux
    split_ifs
    · exact List.count_cons_of_ne (digitChar_ne_dot n).symm acc
    · rw [ih]
      exact List.count_cons_of_ne (digitChar_ne_dot (n % 10)).symm acc

theorem natDigits_count_dot (n : Nat) : (natDigits n).count '.' = 0 := by
  unfold natDigits
  rw [natDigitsAux_count_dot]
  rfl

theorem exponentPart_count_dot (x : Int) : (exponentPart x).count '.' = 0 := by
  unfold exponentPart
  split_ifs <;> simp [List.count_cons, natDigits_count_dot]

theorem scientific_count_dot (ds : List Char) (x : Int) (h : ds.count '.' = 0) :
    (scientific ds x).count '.' ≤ 1 := by
  have hx := exponentPart_count_dot x
  unfold scientific
  split
  · simp [hx]
  · next c =>
    have hc : c ≠ '.' := by
      rintro rfl
      simp at h
    simp [List.count_cons, hx, hc]
  · next c cs _ =>
    have hc : c ≠ '.' := by
      rintro rfl
      simp at h
    have hcs : cs.count '.' = 0 := by
      simpa [List.count_cons, hc] using h
    simp [List.count_cons, List.count_append, hx, hc, hcs]

theorem layoutDigits_count_dot (ds : List Char) (j : Int) (h : ds.count '.' = 0) :
    (layoutDigits ds j).count '.' ≤ 1 := by
  have htake : ∀ k, (ds.take k).count '.' = 0 :=
    fun k => Nat.le_zero.mp (h ▸ (List.take_sublist k ds).count_le '.')
  have hdrop : ∀ k, (ds.drop k).count '.' = 0 :=
    fun k => Nat.le_zero.mp (h ▸ (List.drop_sublist k ds).count_le '.')
  unfold layoutDigits
  simp only []
  split_ifs
  · simp [List.count_append, h, List.count_replicate]
  · simp [List.count_append, List.count_cons, htake, hdrop]
  · simp [List.count_append, List.count_cons, h, List.count_replicate]
  · exact scientific_count_dot ds _ h

theorem toJSString_countDots (x : Num) : countDots x.toJSString ≤ 1 := by
  unfold countDots
  cases x with
  | nan => decide
  | inf s => cases s <;> decide
  | fin s m e =>
    have := layoutDigits_count_dot (natDigits (shortest m e).1) (shortest m e).2
      (natDigits_count_dot _)
    simp only [Num.toJSString]
    split_ifs
    · decide
    · simpa [List.count_append, List.count_cons] using this
    · simpa [List.count_append, List.count_cons] using this

theorem toExponential_countDots (x : Num) (f : Nat) : countDots (x.toExponential f) ≤ 1 := by
  unfold countDots
  cases x with
  | nan => show List.count '.' "NaN".data ≤ 1; decide
  | inf s =>
    cases s
    · show List.count '.' "Infinity".data ≤ 1; decide
    · show List.count '.' "-Infinity".data ≤ 1; decide
  | fin s m e =>
    have htake : ∀ n k, ((natDigits n).take k).count '.' = 0 :=
      fun n k => Nat.le_zero.mp (natDigits_count_dot n ▸ (List.take_sublist k _).count_le '.')
    have htail : ∀ n, (natDigits n).tail.count '.' = 0 :=
      fun n => Nat.le_zero.mp (natDigits_count_dot n ▸ (List.tail_sublist _).count_le '.')
    simp only [Num.toExponential]
    split_ifs <;>
      simp [List.count_append, List.count_cons, List.count_replicate, natDigits_count_dot,
        exponentPart_count_dot, htake, htail]

theorem digitString_countDots (d : Fin 10) : countDots (digitString d) = 0 := by
  revert d; decide

theorem countDots_append (s t : String) : countDots (s ++ t) = countDots s + countDots t := by
  simp [countDots, List.count_append]

theorem roundResult_countDots (x : Num) : countDots (roundResult x).toJSString ≤ 1 := by
  unfold roundResult
  split_ifs
  · exact toExponential_countDots x 5
  · exact toJSString_countDots _

theorem updateDisplay_currentValue (c : Calculator) :
    c.updateDisplay.currentValue = c.currentValue := rfl

theorem handleError_countDots (c : Calculator) (msg : String) :
    countDots (c.handleError msg).currentValue ≤ 1 := by
  simp only [Calculator.handleError, updateDisplay_currentValue]
  decide

theorem inputNumber_countDots (c : Calculator) (d : Fin 10)
    (h : countDots c.currentValue ≤ 1) :
    countDots (c.inputNumber (digitString d)).currentValue ≤ 1 := by
  have hd := digitString_countDots d
  simp only [Calculator.inputNumber, updateDisplay_currentValue]
  split_ifs
  · simp [hd]
  · simp [hd]
  · simp [countDots_append, hd, h]
  · exact h

theorem inputDecimal_countDots (c : Calculator) (h : countDots c.currentValue ≤ 1) :
    countDots c.inputDecimal.currentValue ≤ 1 := by
  simp only [Calculator.inputDecimal, updateDisplay_currentValue]
  split_ifs with h1 h2
  · show countDots "0." ≤ 1
    decide
  · exact h
  · have h0 : countDots c.currentValue = 0 := List.count_eq_zero.mpr h2
    rw [countDots_append, h0]
    decide

theorem calculate_countDots (c : Calculator) (h : countDots c.currentValue ≤ 1) :
    countDots c.calculate.currentValue ≤ 1 := by
  unfold Calculator.calculate
  split_ifs
  · exact h
  · split
    · exact h
    · exact handleError_countDots c _
    · split_ifs
      · exact handleError_countDots c _
      · exact roundResult_countDots _

theorem setOperation_countDots (c : Calculator) (op : String)
    (h : countDots c.currentValue ≤ 1) :
    countDots (c.setOperation op).currentValue ≤ 1 := by
  simp only [Calculator.setOperation, updateDisplay_currentValue]
  split_ifs
  · exact calculate_countDots _ h
  · exact h

theorem percent_countDots (c : Calculator) (h : countDots c.currentValue ≤ 1) :
    countDots c.percent.currentValue ≤ 1 := by
  unfold Calculator.percent
  simp only []
  split_ifs
  · exact h
  · exact toJSString_countDots _

theorem delete_countDots (c : Calculator) (h : countDots c.currentValue ≤ 1) :
    countDots c.delete.currentValue ≤ 1 := by
  simp only [Calculator.delete, updateDisplay_currentValue]
  split_ifs
  · exact le_trans ((List.dropLast_sublist _).count_le '.') h
  · show countDots "0" ≤ 1
    decide

/-- C9: in every reachable state `currentValue` contains at most one decimal point. -/
theorem C9_at_most_one_decimal_point (c : Calculator) (h : Reachable c) :
    countDots c.currentValue ≤ 1 := by
  induction h with
  | init => decide
  | step c e _ ih =>
    cases e with
    | number d => exact inputNumber_countDots c d ih
    | decimal => exact inputDecimal_countDots c ih
    | operator op => exact setOperation_countDots c op.symbol ih
    | equals => exact calculate_countDots c ih
    | percent => exact percent_countDots c ih
    | delete => exact delete_countDots c ih
    | clear =>
      show countDots "0" ≤ 1
      decide

/-- C9 at the reachable state after `1 . 5 . . 2 5`: the second and third decimal points are
ignored and the display reads `"1.525"`. -/
theorem C9_at_most_one_decimal_point_witness :
    countDots (Calculator.constructor.run
      [.number 1, .decimal, .number 5, .decimal, .decimal, .number 2, .number 5]).currentValue
      ≤ 1 :=
  C9_at_most_one_decimal_point _ (reachable_run _)

/-- C11: in the state a failed calculation leaves (`handleError`), each of `inputNumber(d)`,
`inputDecimal()`, `delete()` and `clear()` takes the error class off and otherwise does what
it does on the same state without the error class; `inputNumber(d)` gives `currentValue = d`
and `inputDecimal()` gives `currentValue = "0."` (and `delete()` drops the last character of
the marker, `clear()` gives `"0"`). -/
theorem C11_input_after_error (c : Calculator) (message d : String) :
    (((c.handleError message).inputNumber d).errorClass = false ∧
     ((c.handleError message).inputDecimal).errorClass = false ∧
     ((c.handleError message).delete).errorClass = false ∧
     ((c.handleError message).clear).errorClass = false) ∧
    ((c.handleError message).inputNumber d =
        ({ c.handleError message with errorClass := false } : Calculator).inputNumber d ∧
     (c.handleError message).inputDecimal =
        ({ c.handleError message with errorClass := false } : Calculator).inputDecimal ∧
     (c.handleError message).delete =
        ({ c.handleError message with errorClass := false } : Calculator).delete ∧
     (c.handleError message).clear =
        ({ c.handleError message with errorClass := false } : Calculator).clear) ∧
    (((c.handleError message).inputNumber d).currentValue = d ∧
     ((c.handleError message).inputDecimal).currentValue = "0." ∧
     ((c.handleError message).delete).currentValue = "Erro" ∧
     ((c.handleError message).clear).currentValue = "0") := by
  have hlen : 1 < ("Error" : String).length := by decide
  have hne : ("Error" : String) ≠ "0" := by decide
  have hdrop : String.mk ("Error" : String).data.dropLast = "Erro" := by decide
  refine ⟨⟨rfl, rfl, rfl, rfl⟩, ⟨rfl, rfl, rfl, rfl⟩, ?_, ?_, ?_, rfl⟩
  · simp [Calculator.handleError, Calculator.inputNumber, Calculator.updateDisplay]
  · simp [Calculator.handleError, Calculator.inputDecimal, Calculator.updateDisplay]
  · simp [Calculator.handleError, Calculator.delete, Calculator.updateDisplay, hlen, hne, hdrop]

/-- What `percent()` does to every state: when `currentValue` parses to a Number (not `NaN`)
it stores the string of the binary64 quotient by 100, sets `shouldResetDisplay`, and leaves
`operation`, `previousValue`, `expression`, `lastResult` and the error class as they were;
when `currentValue` does not parse to a number it changes nothing at all. -/
theorem percent_effect (c : Calculator) :
    ((parseFloat c.currentValue).isNaN = false →
      c.percent.currentValue = ((parseFloat c.currentValue).div (Num.ofNat 100)).toJSString ∧
      c.percent.shouldResetDisplay = true ∧
      c.percent.operation = c.operation ∧
      c.percent.previousValue = c.previousValue ∧
      c.percent.expression = c.expression ∧
      c.percent.lastResult = c.lastResult ∧
      c.percent.errorClass = c.errorClass) ∧
    ((parseFloat c.currentValue).isNaN = true → c.percent = c) := by
  constructor
  · intro h
    simp [Calculator.percent, h, Calculator.updateDisplay]
  · intro h
    simp [Calculator.percent, h]

/-- C13, evaluated on the code: after typing `0 . 0 7` (a reachable state with
`currentValue = "0.07"`, no operation) `percent()` stores `"0.0007000000000000001"`, not the
decimal string `"0.0007"` of 0.07 / 100, while it does set `shouldResetDisplay` and keep
`operation` and `previousValue`; the same division through `calculate()`, `0.07 ÷ 100 =`,
stores `"0.0007"`, because that path rounds the quotient and `percent()` does not. -/
theorem C13_percent_not_rounded :
    Reachable (Calculator.constructor.run [.number 0, .decimal, .number 0, .number 7]) ∧
    (Calculator.constructor.run
      [.number 0, .decimal, .number 0, .number 7]).currentValue = "0.07" ∧
    (Calculator.constructor.run
      [.number 0, .decimal, .number 0, .number 7]).percent.currentValue =
        "0.0007000000000000001" ∧
    (Calculator.constructor.run
      [.number 0, .decimal, .number 0, .number 7]).percent.shouldResetDisplay = true ∧
    (Calculator.constructor.run
      [.number 0, .decimal, .number 0, .number 7]).percent.operation = none ∧
    (Calculator.constructor.run
      [.number 0, .decimal, .number 0, .number 7]).percent.previousValue = "" ∧
    (Calculator.constructor.run
      [.number 0, .decimal, .number 0, .number 7, .operator .divide,
       .number 1, .number 0, .number 0, .equals]).currentValue = "0.0007" :=
  ⟨reachable_run _, by decide!, by decide!, by decide!, by decide!, by decide!, by decide!⟩

/-- C14: `delete()` leaves `currentValue` without its last character when it has more than one
character, and `"0"` otherwise; the result is never empty; `"5"` becomes `"0"` and `"12"`
becomes `"1"`. -/
theorem C14_delete (c : Calculator) :
    (c.delete.currentValue =
      if 1 < c.currentValue.length then String.mk c.currentValue.data.dropLast else "0") ∧
    c.delete.currentValue ≠ "" ∧
    (Calculator.constructor.run [.number 5]).currentValue = "5" ∧
    (Calculator.constructor.run [.number 5]).delete.currentValue = "0" ∧
    (Calculator.constructor.run [.number 1, .number 2]).currentValue = "12" ∧
    (Calculator.constructor.run [.number 1, .number 2]).delete.currentValue = "1" := by
  have h0 : ("0" : String) ≠ "" := by decide
  have hval : c.delete.currentValue =
      if 1 < c.currentValue.length then String.mk c.currentValue.data.dropLast else "0" := by
    simp only [Calculator.delete, updateDisplay_currentValue]
    by_cases hl : 1 < c.currentValue.length
    · have hne : c.currentValue ≠ "0" := by
        intro h
        rw [h] at hl
        exact absurd hl (by decide)
      simp [hl, hne]
    · simp [hl]
  refine ⟨hval, ?_, by decide!, by decide!, by decide!, by decide!⟩
  rw [hval]
  split_ifs with hl
  · intro h
    have hd := congrArg String.length h
    simp only [String.length_mk, List.length_dropLast] at hd
    have : c.currentValue.data.length = c.currentValue.length := rfl
    have h00 : ("" : String).length = 0 := rfl
    omega
  · exact h0

/-- C15: when the operation is none or `previousValue` is empty, `calculate()` changes no
field of the state, the texts on screen included. -/
theorem C15_calculate_noop (c : Calculator)
    (h : c.operation = none ∨ c.previousValue = "") : c.calculate = c := by
  rcases h with h | h
  · simp [Calculator.calculate, h, truthy]
  · simp [Calculator.calculate, h]

/-- C15 at the state after typing `5` (no operation) and at the state
`operation = "+"`, `previousValue = ""`. -/
theorem C15_calculate_noop_witness :
    (Calculator.constructor.run [.number 5]).calculate = Calculator.constructor.run [.number 5] ∧
    ({ Calculator.constructor with operation := some "+" } : Calculator).calculate =
      { Calculator.constructor with operation := some "+" } :=
  ⟨C15_calculate_noop _ (Or.inl (by decide!)), C15_calculate_noop _ (Or.inr (by decide!))⟩

theorem calculate_expression_irrelevant (c : Calculator) (x : String) :
    ({ c with expression := x } : Calculator).calculate.currentValue = c.calculate.currentValue ∧
    ({ c with expression := x } : Calculator).calculate.previousValue = c.calculate.previousValue ∧
    ({ c with expression := x } : Calculator).calculate.operation = c.calculate.operation ∧
    ({ c with expression := x } : Calculator).calculate.shouldResetDisplay =
      c.calculate.shouldResetDisplay ∧
    ({ c with expression := x } : Calculator).calculate.errorClass = c.calculate.errorClass ∧
    ({ c with expression := x } : Calculator).calculate.lastResult = c.calculate.lastResult ∧
    ({ c with expression := x } : Calculator).calculate.displayText = c.calculate.displayText := by
  unfold Calculator.calculate
  simp only []
  split_ifs
  · exact ⟨rfl, rfl, rfl, rfl, rfl, rfl, rfl⟩
  · split
    · exact ⟨rfl, rfl, rfl, rfl, rfl, rfl, rfl⟩
    · exact ⟨rfl, rfl, rfl, rfl, rfl, rfl, rfl⟩
    · split_ifs <;> exact ⟨rfl, rfl, rfl, rfl, rfl, rfl, rfl⟩

/-- C19: the field `expression` has no effect on computation: two states that differ only in
`expression` agree, after any input event, on `currentValue`, `previousValue`, `operation`,
`shouldResetDisplay` and the error class (and on `lastResult` and the text of the display). -/
theorem C19_expression_irrelevant (c : Calculator) (x : String) (e : Event) :
    (({ c with expression := x } : Calculator).step e).currentValue = (c.step e).currentValue ∧
    (({ c with expression := x } : Calculator).step e).previousValue = (c.step e).previousValue ∧
    (({ c with expression := x } : Calculator).step e).operation = (c.step e).operation ∧
    (({ c with expression := x } : Calculator).step e).shouldResetDisplay =
      (c.step e).shouldResetDisplay ∧
    (({ c with expression := x } : Calculator).step e).errorClass = (c.step e).errorClass ∧
    (({ c with expression := x } : Calculator).step e).lastResult = (c.step e).lastResult ∧
    (({ c with expression := x } : Calculator).step e).displayText = (c.step e).displayText := by
  cases e with
  | number d =>
    simp only [Calculator.step, Calculator.inputNumber, Calculator.updateDisplay]
    split_ifs <;> exact ⟨rfl, rfl, rfl, rfl, rfl, rfl, rfl⟩
  | decimal =>
    simp only [Calculator.step, Calculator.inputDecimal, Calculator.updateDisplay]
    split_ifs <;> exact ⟨rfl, rfl, rfl, rfl, rfl, rfl, rfl⟩
  | operator op =>
    have h := calculate_expression_irrelevant ({ c with errorClass := false } : Calculator) x
    simp only [Calculator.step, Calculator.setOperation, Calculator.updateDisplay]
    split_ifs <;> simp [h.1, h.2.2.2.2.1, h.2.2.2.2.2.1]
  | equals =>
    exact calculate_expression_irrelevant c x
  | percent =>
    simp only [Calculator.step, Calculator.percent, Calculator.updateDisplay]
    split_ifs <;> exact ⟨rfl, rfl, rfl, rfl, rfl, rfl, rfl⟩
  | delete =>
    simp only [Calculator.step, Calculator.delete, Calculator.updateDisplay]
    split_ifs <;> exact ⟨rfl, rfl, rfl, rfl, rfl, rfl, rfl⟩
  | clear => exact ⟨rfl, rfl, rfl, rfl, rfl, rfl, rfl⟩

/-- C12, evaluated on the code: `5000000 × 4000000 =` succeeds with the result `2e13`;
`currentValue` becomes `"2.00000e+13"`, but the text written to the display is
`formatNumber` of it, `"20,000,000,000,000"`, not the scientific notation. -/
theorem C12_large_result_display :
    (Calculator.constructor.run
      [.number 5, .number 0, .number 0, .number 0, .number 0, .number 0, .number 0,
       .operator .multiply,
       .number 4, .number 0, .number 0, .number 0, .number 0, .number 0, .number 0,
       .equals]).currentValue = "2.00000e+13" ∧
    (Calculator.constructor.run
      [.number 5, .number 0, .number 0, .number 0, .number 0, .number 0, .number 0,
       .operator .multiply,
       .number 4, .number 0, .number 0, .number 0, .number 0, .number 0, .number 0,
       .equals]).errorClass = false ∧
    (Calculator.constructor.run
      [.number 5, .number 0, .number 0, .number 0, .number 0, .number 0, .number 0,
       .operator .multiply,
       .number 4, .number 0, .number 0, .number 0, .number 0, .number 0, .number 0,
       .equals]).displayText = "20,000,000,000,000" :=
  ⟨by decide!, by decide!, by decide!⟩

theorem natDigitsAux_ne_nil (fuel n : Nat) (acc : List Char) (h : 0 < fuel ∨ acc ≠ []) :
    natDigitsAux fuel n acc ≠ [] := by
  induction fuel generalizing n acc with
  | zero =>
    rcases h with h | h
    · exact absurd h (lt_irrefl 0)
    · exact h
  | succ fuel ih =>
    unfold natDigitsAux
    split_ifs
    · exact List.cons_ne_nil _ _
    · exact ih _ _ (Or.inr (List.cons_ne_nil _ _))

theorem natDigits_ne_nil (n : Nat) : natDigits n ≠ [] :=
  natDigitsAux_ne_nil _ _ _ (Or.inl (Nat.succ_pos n))

theorem exponentPart_ne_nil (x : Int) : exponentPart x ≠ [] := List.cons_ne_nil _ _

theorem layoutDigits_ne_nil (ds : List Char) (j : Int) (h : ds ≠ []) :
    layoutDigits ds j ≠ [] := by
  unfold layoutDigits
  simp only []
  split_ifs
  · simp [h]
  · simp
  · simp
  · unfold scientific
    split <;> simp [exponentPart]

theorem toJSString_ne_empty (x : Num) : x.toJSString ≠ "" := by
  cases x with
  | nan => decide
  | inf s => cases s <;> decide
  | fin s m e =>
    have h := layoutDigits_ne_nil (natDigits (shortest m e).1) (shortest m e).2
      (natDigits_ne_nil _)
    simp only [Num.toJSString]
    split_ifs
    · decide
    · intro hEq
      have hd := congrArg String.data hEq
      simp at hd
    · intro hEq
      have hd := congrArg String.data hEq
      have h0 : ("" : String).data = [] := rfl
      simp only [List.nil_append, h0] at hd
      exact h hd

theorem toExponential_ne_empty (x : Num) (f : Nat) : x.toExponential f ≠ "" := by
  cases x with
  | nan => show ("NaN" : String) ≠ ""; decide
  | inf s =>
    cases s
    · show ("Infinity" : String) ≠ ""; decide
    · show ("-Infinity" : String) ≠ ""; decide
  | fin s m e =>
    simp only [Num.toExponential]
    split_ifs <;>
    · intro hEq
      have hd := congrArg String.data hEq
      simp [exponentPart] at hd

theorem roundResult_ne_empty (x : Num) : (roundResult x).toJSString ≠ "" := by
  unfold roundResult
  split_ifs
  · exact toExponential_ne_empty x 5
  · exact toJSString_ne_empty _

theorem string_append_ne_empty (s t : String) (h : t ≠ "") : s ++ t ≠ "" := by
  intro hEq
  have hd := congrArg String.data hEq
  have h0 : ("" : String).data = [] := rfl
  rw [String.data_append, h0] at hd
  have ht : t.data = [] := (List.append_eq_nil.mp hd).2
  exact h (String.ext ht)

theorem digitString_ne_empty (d : Fin 10) : digitString d ≠ "" := by
  revert d; decide

theorem calculate_currentValue_ne_empty (c : Calculator) (h : c.currentValue ≠ "") :
    c.calculate.currentValue ≠ "" := by
  unfold Calculator.calculate
  split_ifs
  · exact h
  · split
    · exact h
    · show ("Error" : String) ≠ ""; decide
    · split_ifs
      · show ("Error" : String) ≠ ""; decide
      · exact roundResult_ne_empty _

theorem calculate_pending (c : Calculator)
    (h : c.operation ≠ none → c.previousValue ≠ "") :
    c.calculate.operation ≠ none → c.calculate.previousValue ≠ "" := by
  unfold Calculator.calculate
  split_ifs
  · exact h
  · split
    · exact h
    · intro hop; exact absurd rfl hop
    · split_ifs
      · intro hop; exact absurd rfl hop
      · intro hop; exact absurd rfl hop

theorem inputNumber_pending (c : Calculator) (d : String) :
    (c.inputNumber d).operation = c.operation ∧
    (c.inputNumber d).previousValue = c.previousValue := by
  simp only [Calculator.inputNumber, Calculator.updateDisplay]
  split_ifs <;> exact ⟨rfl, rfl⟩

theorem inputDecimal_pending (c : Calculator) :
    c.inputDecimal.operation = c.operation ∧
    c.inputDecimal.previousValue = c.previousValue := by
  simp only [Calculator.inputDecimal, Calculator.updateDisplay]
  split_ifs <;> exact ⟨rfl, rfl⟩

theorem delete_pending (c : Calculator) :
    c.delete.operation = c.operation ∧ c.delete.previousValue = c.previousValue := by
  simp only [Calculator.delete, Calculator.updateDisplay]
  split_ifs <;> exact ⟨rfl, rfl⟩

/-- The two facts that hold together in every reachable state: `currentValue` is not empty, and
a pending operation comes with a non-empty `previousValue`. -/
theorem reachable_nonempty (c : Calculator) (h : Reachable c) :
    c.currentValue ≠ "" ∧ (c.operation ≠ none → c.previousValue ≠ "") := by
  induction h with
  | init => exact ⟨by decide, fun hop => absurd rfl hop⟩
  | step c e _ ih =>
    obtain ⟨hcur, hop⟩ := ih
    cases e with
    | number d =>
      have hp := inputNumber_pending c (digitString d)
      refine ⟨?_, by simpa only [Calculator.step, hp.1, hp.2] using hop⟩
      simp only [Calculator.step, Calculator.inputNumber, updateDisplay_currentValue]
      split_ifs
      · exact digitString_ne_empty d
      · exact digitString_ne_empty d
      · exact string_append_ne_empty _ _ (digitString_ne_empty d)
      · exact hcur
    | decimal =>
      have hp := inputDecimal_pending c
      refine ⟨?_, by simpa only [Calculator.step, hp.1, hp.2] using hop⟩
      simp only [Calculator.step, Calculator.inputDecimal, updateDisplay_currentValue]
      split_ifs
      · show ("0." : String) ≠ ""; decide
      · exact hcur
      · exact string_append_ne_empty _ _ (by decide)
    | operator op =>
      have hc : (if (truthy c.operation && !c.shouldResetDisplay) = true then
          ({ c with errorClass := false } : Calculator).calculate
          else ({ c with errorClass := false } : Calculator)).currentValue ≠ "" := by
        split_ifs
        · exact calculate_currentValue_ne_empty _ hcur
        · exact hcur
      exact ⟨hc, fun _ => hc⟩
    | equals => exact ⟨calculate_currentValue_ne_empty c hcur, calculate_pending c hop⟩
    | percent =>
      simp only [Calculator.step, Calculator.percent]
      split_ifs
      · exact ⟨hcur, hop⟩
      · exact ⟨toJSString_ne_empty _, hop⟩
    | delete =>
      have hp := delete_pending c
      refine ⟨?_, by simpa only [Calculator.step, hp.1, hp.2] using hop⟩
      simp only [Calculator.step, Calculator.delete, updateDisplay_currentValue]
      split_ifs with hl
      · intro hEq
        have hd := congrArg String.length hEq
        simp only [String.length_mk, List.length_dropLast] at hd
        have h1 : c.currentValue.data.length = c.currentValue.length := rfl
        have h00 : ("" : String).length = 0 := rfl
        omega
      · show ("0" : String) ≠ ""; decide
    | clear => exact ⟨by show ("0" : String) ≠ ""; decide, fun hop => absurd rfl hop⟩

theorem setOperation_currentValue (c : Calculator) (op : String) :
    (c.setOperation op).currentValue =
      if (truthy c.operation && !c.shouldResetDisplay) = true then c.calculate.currentValue
      else c.currentValue := by
  have h := (calculate_clear_errorClass c).1
  simp only [Calculator.setOperation, updateDisplay_currentValue]
  split_ifs
  · exact h
  · rfl

/-- C16: in every reachable state a pending operation (`operation ≠ none`) comes with a
non-empty `previousValue`; and `setOperation(op)` on such a state records `op` as the
operation and captures as `previousValue` the `currentValue` of that moment, which is the
value folded by `calculate()` when an operation was pending and a value had been entered, the
unchanged `currentValue` otherwise, and which is not empty; after `7 +` the state holds
operation `+` and `previousValue = "7"`. -/
theorem C16_operation_has_previousValue (c : Calculator) (h : Reachable c) (op : String) :
    (c.operation ≠ none → c.previousValue ≠ "") ∧
    ((c.setOperation op).operation = some op ∧
     (c.setOperation op).previousValue = (c.setOperation op).currentValue ∧
     (c.setOperation op).previousValue =
       (if (truthy c.operation && !c.shouldResetDisplay) = true then c.calculate.currentValue
        else c.currentValue) ∧
     (c.setOperation op).previousValue ≠ "") ∧
    ((Calculator.constructor.run [.number 7, .operator .add]).operation = some "+" ∧
     (Calculator.constructor.run [.number 7, .operator .add]).previousValue = "7" ∧
     (Calculator.constructor.run [.number 7, .operator .add]).currentValue = "7") := by
  have hne := (reachable_nonempty c h).1
  have hcur := setOperation_currentValue c op
  have hprev : (c.setOperation op).previousValue = (c.setOperation op).currentValue := rfl
  refine ⟨(reachable_nonempty c h).2, ⟨rfl, hprev, hprev.trans hcur, ?_⟩,
    by decide!, by decide!, by decide!⟩
  rw [hprev, hcur]
  split_ifs
  · exact calculate_currentValue_ne_empty c hne
  · exact hne

/-- C16 at the reachable state after `7 + 3`, pressing `×`: the operation `+` is pending with
`previousValue = "7"`; `setOperation("×")` records `×` and captures the folded value `"10"`. -/
theorem C16_operation_has_previousValue_witness :
    ((Calculator.constructor.run [.number 7, .operator .add, .number 3]).operation = some "+" ∧
     (Calculator.constructor.run [.number 7, .operator .add, .number 3]).previousValue = "7") ∧
    (((Calculator.constructor.run [.number 7, .operator .add, .number 3]).setOperation
        "×").operation = some "×" ∧
     ((Calculator.constructor.run [.number 7, .operator .add, .number 3]).setOperation
        "×").previousValue = "10" ∧
     ((Calculator.constructor.run [.number 7, .operator .add, .number 3]).setOperation
        "×").currentValue = "10" ∧
     ((Calculator.constructor.run [.number 7, .operator .add, .number 3]).setOperation
        "×").previousValue ≠ "") :=
  ⟨⟨by decide!, by decide!⟩,
   (C16_operation_has_previousValue
      (Calculator.constructor.run [.number 7, .operator .add, .number 3])
      (reachable_run _) "×").2.1.1,
   by decide!, by decide!,
   (C16_operation_has_previousValue
      (Calculator.constructor.run [.number 7, .operator .add, .number 3])
      (reachable_run _) "×").2.1.2.2.2⟩

/-- C17: in every reachable state `currentValue` is not the empty string, and in the
construction state it is `"0"`. -/
theorem C17_currentValue_never_empty (c : Calculator) (h : Reachable c) :
    c.currentValue ≠ "" ∧ Calculator.constructor.currentValue = "0" :=
  ⟨(reachable_nonempty c h).1, rfl⟩

/-- C17 at the reachable state after `1 2`, delete, delete, delete: the display is back at
`"0"` and not empty. -/
theorem C17_currentValue_never_empty_witness :
    (Calculator.constructor.run
      [.number 1, .number 2, .delete, .delete, .delete]).currentValue ≠ "" ∧
    Calculator.constructor.currentValue = "0" :=
  C17_currentValue_never_empty _ (reachable_run _)

/-- C20: the last operator pressed wins: `setOperation(op1)` leaves `shouldResetDisplay` set,
so `setOperation(op2)` right after it does not calculate again, it only replaces the operator
and rewrites `expression`; and `setOperation(op2)` after `setOperation(op1)` agrees with
`setOperation(op2)` alone on `currentValue`, `previousValue`, `operation`, `expression` and
`shouldResetDisplay` (and on `lastResult` and both texts on screen). -/
theorem C20_last_operator_wins (c : Calculator) (op1 op2 : String) :
    ((c.setOperation op1).shouldResetDisplay = true ∧
     (c.setOperation op1).setOperation op2 =
       { c.setOperation op1 with
         errorClass := false, operation := some op2,
         expression := formatNumber (c.setOperation op1).currentValue ++ " " ++ op2,
         expressionText := formatNumber (c.setOperation op1).currentValue ++ " " ++ op2 }) ∧
    (((c.setOperation op1).setOperation op2).currentValue = (c.setOperation op2).currentValue ∧
     ((c.setOperation op1).setOperation op2).previousValue = (c.setOperation op2).previousValue ∧
     ((c.setOperation op1).setOperation op2).operation = (c.setOperation op2).operation ∧
     ((c.setOperation op1).setOperation op2).expression = (c.setOperation op2).expression ∧
     ((c.setOperation op1).setOperation op2).shouldResetDisplay =
       (c.setOperation op2).shouldResetDisplay ∧
     ((c.setOperation op1).setOperation op2).lastResult = (c.setOperation op2).lastResult ∧
     ((c.setOperation op1).setOperation op2).displayText = (c.setOperation op2).displayText ∧
     ((c.setOperation op1).setOperation op2).expressionText =
       (c.setOperation op2).expressionText) := by
  have hstep : (c.setOperation op1).setOperation op2 =
      { c.setOperation op1 with
        errorClass := false, operation := some op2,
        expression := formatNumber (c.setOperation op1).currentValue ++ " " ++ op2,
        expressionText := formatNumber (c.setOperation op1).currentValue ++ " " ++ op2 } := by
    simp [Calculator.setOperation, Calculator.updateDisplay]
  refine ⟨⟨rfl, hstep⟩, ?_⟩
  rw [hstep]
  simp [Calculator.setOperation, Calculator.updateDisplay]

theorem bitLenAux_spec (fuel n : Nat) (h : n ≤ fuel) :
    n < 2 ^ bitLenAux fuel n ∧ (1 ≤ n → 2 ^ (bitLenAux fuel n - 1) ≤ n) := by
  induction fuel generalizing n with
  | zero =>
    have h0 : n = 0 := Nat.le_zero.mp h
    subst h0
    exact ⟨by simp [bitLenAux], fun h1 => absurd h1 (by decide)⟩
  | succ fuel ih =>
    unfold bitLenAux
    by_cases hn : n = 0
    · subst hn
      exact ⟨by simp, fun h1 => absurd h1 (by decide)⟩
    · simp only [hn, if_false]
      have hle : n / 2 ≤ fuel := by omega
      obtain ⟨h1, h2⟩ := ih (n / 2) hle
      constructor
      · rw [pow_succ]
        omega
      · intro _
        simp only [Nat.add_sub_cancel]
        by_cases h3 : 1 ≤ n / 2
        · have h4 := h2 h3
          have h5 : 1 ≤ bitLenAux fuel (n / 2) := by
            by_contra hc
            have h6 : bitLenAux fuel (n / 2) = 0 := by omega
            rw [h6] at h1
            simp at h1
            omega
          have h7 : 2 ^ bitLenAux fuel (n / 2) = 2 * 2 ^ (bitLenAux fuel (n / 2) - 1) := by
            rw [← pow_succ']
            congr 1
            omega
          rw [h7]
          omega
        · have h8 : n / 2 = 0 := by omega
          rw [h8]
          have h9 : bitLenAux fuel 0 = 0 := by
            cases fuel <;> simp [bitLenAux]
          rw [h9]
          simp
          omega

theorem bitLen_spec (n : Nat) (h : 1 ≤ n) : 2 ^ (bitLen n - 1) ≤ n ∧ n < 2 ^ bitLen n :=
  ⟨(bitLenAux_spec n n (le_refl n)).2 h, (bitLenAux_spec n n (le_refl n)).1⟩

theorem bitLen_unique (n b : Nat) (hb : 1 ≤ b) (h1 : 2 ^ (b - 1) ≤ n) (h2 : n < 2 ^ b) :
    bitLen n = b := by
  have hn : 1 ≤ n := le_trans Nat.one_le_two_pow h1
  obtain ⟨h3, h4⟩ := bitLen_spec n hn
  have h5 : b - 1 < bitLen n := (Nat.pow_lt_pow_iff_right (by decide : 1 < 2)).mp
    (lt_of_le_of_lt h1 h4)
  have h6 : bitLen n - 1 < b := (Nat.pow_lt_pow_iff_right (by decide : 1 < 2)).mp
    (lt_of_le_of_lt h3 h2)
  omega

theorem bitLen_pos (n : Nat) (h : 1 ≤ n) : 1 ≤ bitLen n := by
  by_contra hc
  have h0 : bitLen n = 0 := by omega
  have h1 := (bitLen_spec n h).2
  rw [h0] at h1
  omega

theorem bitLen_mul_two_pow (n t : Nat) (h : 1 ≤ n) : bitLen (n * 2 ^ t) = bitLen n + t := by
  obtain ⟨h1, h2⟩ := bitLen_spec n h
  have hb := bitLen_pos n h
  apply bitLen_unique
  · omega
  · have : bitLen n + t - 1 = (bitLen n - 1) + t := by omega
    rw [this, pow_add]
    exact Nat.mul_le_mul_right _ h1
  · rw [pow_add]
    exact Nat.mul_lt_mul_of_pos_right h2 (Nat.two_pow_pos t)

theorem bitLen_two_pow (t : Nat) : bitLen (2 ^ t) = t + 1 := by
  apply bitLen_unique
  · omega
  · simp
  · exact Nat.pow_lt_pow_right (by decide) (Nat.lt_succ_self t)

theorem floorLog2_scaled (n t : Nat) (h : 1 ≤ n) :
    floorLog2 (n * 2 ^ t) (2 ^ t) = (bitLen n : Int) - 1 := by
  obtain ⟨h1, _⟩ := bitLen_spec n h
  have hb := bitLen_pos n h
  unfold floorLog2
  rw [bitLen_mul_two_pow n t h, bitLen_two_pow]
  have hk : ((bitLen n + t : Nat) : Int) - ((t + 1 : Nat) : Int) = ((bitLen n - 1 : Nat) : Int) := by
    omega
  simp only [hk]
  have hge : geTwoPow (n * 2 ^ t) (2 ^ t) ((bitLen n - 1 : Nat) : Int) = true := by
    unfold geTwoPow
    simp only [Int.natCast_nonneg, if_true, Int.toNat_ofNat, decide_eq_true_eq]
    rw [Nat.mul_comm]
    exact Nat.mul_le_mul_right _ h1
  rw [hge]
  simp only [if_true]
  omega

theorem floorLog2_one (n : Nat) (h : 1 ≤ n) : floorLog2 n 1 = (bitLen n : Int) - 1 := by
  have := floorLog2_scaled n 0 h
  simpa using this

/-- Integers below `2^53` are binary64 values: `roundQ` gives exactly `n`. -/
theorem roundQ_exact (neg : Bool) (n : Nat) (h1 : 1 ≤ n) (h2 : n < 2 ^ 53) :
    roundQ neg n 1 = .fin neg (n * 2 ^ (53 - bitLen n)) ((bitLen n : Int) - 53) := by
  obtain ⟨h3, h4⟩ := bitLen_spec n h1
  have hb := bitLen_pos n h1
  have hb53 : bitLen n ≤ 53 := by
    have := (Nat.pow_lt_pow_iff_right (by decide : 1 < 2)).mp (lt_of_le_of_lt h3 h2)
    omega
  have hn0 : n ≠ 0 := by omega
  unfold roundQ
  rw [floorLog2_one n h1]
  simp only [hn0, if_false]
  have hs : max ((bitLen n : Int) - 1 - 52) (-1074) = (bitLen n : Int) - 53 := by omega
  rw [hs]
  have hm : n * 2 ^ (53 - bitLen n) < 2 ^ 53 := by
    have h5 : n * 2 ^ (53 - bitLen n) < 2 ^ bitLen n * 2 ^ (53 - bitLen n) :=
      Nat.mul_lt_mul_of_pos_right h4 (Nat.two_pow_pos _)
    rw [← pow_add] at h5
    have h6 : bitLen n + (53 - bitLen n) = 53 := by omega
    rw [h6] at h5
    exact h5
  have hp : (2 : Nat) ^ 53 = 9007199254740992 := by norm_num
  have hm' : n * 2 ^ (53 - bitLen n) ≠ 9007199254740992 := by omega
  by_cases hlt : (bitLen n : Int) - 53 < 0
  · have ht : (-((bitLen n : Int) - 53)).toNat = 53 - bitLen n := by omega
    have h971 : ¬ (971 < (bitLen n : Int) - 53) := by omega
    simp only [hlt, if_true, ht, Nat.div_one, Nat.mod_one, Nat.mul_zero, Nat.lt_irrefl,
      false_or, false_and, if_false, h971, Nat.ne_of_lt hm]
    simp
    intro h
    exact absurd h hm'
  · have hb0 : bitLen n = 53 := by omega
    have h0 : (bitLen n : Int) - 53 = 0 := by omega
    rw [h0]
    rw [hb0] at hm
    simp only [Nat.sub_self, pow_zero, Nat.mul_one] at hm
    have hn' : n ≠ 9007199254740992 := by omega
    simp [hb0, Nat.mod_one, hn']

theorem roundQ_large (neg neg' : Bool) (c m : Nat) (e : Int) (h : 2 ^ 53 ≤ c)
    (heq : roundQ neg c 1 = .fin neg' m e) : 1 ≤ e := by
  have h1 : 1 ≤ c := le_trans Nat.one_le_two_pow h
  obtain ⟨_, h4⟩ := bitLen_spec c h1
  have hb : 53 < bitLen c :=
    (Nat.pow_lt_pow_iff_right (by decide : 1 < 2)).mp (lt_of_le_of_lt h h4)
  have hc0 : c ≠ 0 := by omega
  unfold roundQ at heq
  rw [floorLog2_one c h1] at heq
  simp only [hc0, if_false] at heq
  have hs : max ((bitLen c : Int) - 1 - 52) (-1074) = (bitLen c : Int) - 53 := by omega
  rw [hs] at heq
  split_ifs at heq <;> (injection heq with _ _ he; omega)

theorem roundQ_injective (c n : Nat) (h1 : 1 ≤ n) (h2 : n < 2 ^ 53)
    (heq : roundQ false c 1 = roundQ false n 1) : c = n := by
  have hb := bitLen_pos n h1
  rw [roundQ_exact false n h1 h2] at heq
  by_cases hc0 : c = 0
  · subst hc0
    have : roundQ false 0 1 = .fin false 0 (-1074) := by simp [roundQ]
    rw [this] at heq
    injection heq with _ _ he
    omega
  · by_cases hc : c < 2 ^ 53
    · have hc1 : 1 ≤ c := by omega
      rw [roundQ_exact false c hc1 hc] at heq
      injection heq with _ hm he
      have hbb : bitLen c = bitLen n := by omega
      rw [hbb] at hm
      exact Nat.eq_of_mul_eq_mul_right (Nat.two_pow_pos _) hm
    · have := roundQ_large false false c _ _ (by omega) heq
      have hb53 : bitLen n ≤ 53 := by
        obtain ⟨h3, _⟩ := bitLen_spec n h1
        have := (Nat.pow_lt_pow_iff_right (by decide : 1 < 2)).mp (lt_of_le_of_lt h3 h2)
        omega
      omega

theorem digitChar_facts (d : Fin 10) :
    '0' ≤ digitChar d.val ∧ digitChar d.val ≤ '9' ∧ (digitChar d.val).toNat - 48 = d.val ∧
    isStrWhiteSpace (digitChar d.val) = false ∧ digitChar d.val ≠ '+' ∧
    digitChar d.val ≠ '-' ∧ digitChar d.val ≠ 'I' := by
  revert d; decide

theorem readDigits_digit (d : Nat) (hd : d < 10) (rest : List Char) (a c : Nat) :
    readDigits (digitChar d :: rest) a c = readDigits rest (a * 10 + d) (c + 1) := by
  have h := digitChar_facts ⟨d, hd⟩
  simp only [] at h
  conv_lhs => unfold readDigits
  simp [h.1, h.2.1, h.2.2.1]

theorem natDigitsAux_spec (fuel : Nat) :
    ∀ (n : Nat) (acc : List Char), n < 10 ^ fuel → 1 ≤ fuel →
      ∃ k, 1 ≤ k ∧ n < 10 ^ k ∧ (1 ≤ n → 10 ^ (k - 1) ≤ n) ∧
        (natDigitsAux fuel n acc).length = acc.length + k ∧
        (∃ d rest, d < 10 ∧ natDigitsAux fuel n acc = digitChar d :: rest) ∧
        ∀ a c, readDigits (natDigitsAux fuel n acc) a c =
          readDigits acc (a * 10 ^ k + n) (c + k) := by
  induction fuel with
  | zero => intro n acc _ h; exact absurd h (by decide)
  | succ fuel ih =>
    intro n acc hn _
    unfold natDigitsAux
    by_cases h10 : n < 10
    · simp only [h10, if_true]
      refine ⟨1, le_refl 1, by simpa using h10, fun h => by simpa using h, by simp,
        ⟨n, acc, h10, rfl⟩, fun a c => ?_⟩
      rw [readDigits_digit n h10]
      simp
    · simp only [h10, if_false]
      have hdiv : n / 10 < 10 ^ fuel := by
        rw [pow_succ] at hn
        omega
      have hfuel : 1 ≤ fuel := by
        by_contra hc
        have : fuel = 0 := by omega
        subst this
        simp at hdiv
        omega
      obtain ⟨k, hk1, hk2, hk3, hk4, ⟨d, rest, hd, hhead⟩, hk5⟩ :=
        ih (n / 10) (digitChar (n % 10) :: acc) hdiv hfuel
      refine ⟨k + 1, by omega, ?_, ?_, ?_, ⟨d, rest, hd, hhead⟩, fun a c => ?_⟩
      · rw [pow_succ]
        omega
      · intro _
        have := hk3 (by omega)
        have hpow : 10 ^ (k + 1 - 1) = 10 ^ (k - 1) * 10 := by
          rw [← pow_succ]
          congr 1
          omega
        rw [hpow]
        omega
      · rw [hk4]
        simp
        omega
      · rw [hk5, readDigits_digit (n % 10) (Nat.mod_lt _ (by decide))]
        congr 1
        rw [pow_succ]
        have := Nat.div_add_mod n 10
        nlinarith [this]

/-- The digits of `n ≥ 1`: their number `k` is the decimal length of `n`, the first one is a
digit character, and `readDigits` reads them back as `n`. -/
theorem natDigits_spec (n : Nat) (hn : 1 ≤ n) :
    ∃ k, 1 ≤ k ∧ 10 ^ (k - 1) ≤ n ∧ n < 10 ^ k ∧ (natDigits n).length = k ∧
      (∃ d rest, d < 10 ∧ natDigits n = digitChar d :: rest) ∧
      readDigits (natDigits n) 0 0 = (n, k, []) := by
  have hlt : n < 10 ^ (n + 1) :=
    lt_trans (Nat.lt_pow_self (by decide : 1 < 10) n) (Nat.pow_lt_pow_right (by decide) (by omega))
  obtain ⟨k, hk1, hk2, hk3, hk4, hk5, hk6⟩ := natDigitsAux_spec (n + 1) n [] hlt (by omega)
  refine ⟨k, hk1, hk3 hn, hk2, by simpa using hk4, hk5, ?_⟩
  unfold natDigits
  rw [hk6]
  simp [readDigits]

theorem parseUnsigned_natDigits (neg : Bool) (n : Nat) (hn : 1 ≤ n) :
    parseUnsigned neg (natDigits n) = roundQ neg n 1 := by
  obtain ⟨k, hk1, _, _, _, ⟨d, rest, hd, hhead⟩, hread⟩ := natDigits_spec n hn
  have hf := digitChar_facts ⟨d, hd⟩
  simp only [] at hf
  have hinf : ¬ ("Infinity".data <+: natDigits n) := by
    rw [hhead]
    have hI : ("Infinity" : String).data = 'I' :: "nfinity".data := rfl
    rw [hI, List.cons_prefix_cons]
    intro h
    exact hf.2.2.2.2.2.2 h.1.symm
  unfold parseUnsigned
  simp only [hinf, if_false, hread]
  have hk0 : k ≠ 0 := by omega
  simp [hk0, readExponent, decimalToNum]

/-- Reading the decimal text of an integer `n ≥ 1`, with or without a minus sign, gives the
Number nearest to `n`. -/
theorem parseFloat_integer (neg : Bool) (n : Nat) (hn : 1 ≤ n) :
    parseFloat ⟨(if neg then ['-'] else []) ++ natDigits n⟩ = roundQ neg n 1 := by
  obtain ⟨k, hk1, _, _, _, ⟨d, rest, hd, hhead⟩, _⟩ := natDigits_spec n hn
  have hf := digitChar_facts ⟨d, hd⟩
  simp only [] at hf
  unfold parseFloat
  cases neg with
  | true =>
    have hw : isStrWhiteSpace '-' = false := by decide
    simp only [if_true, List.singleton_append, List.dropWhile_cons, hw]
    exact parseUnsigned_natDigits true n hn
  | false =>
    have hdrop : List.dropWhile isStrWhiteSpace (natDigits n) = natDigits n := by
      rw [hhead]
      simp [List.dropWhile_cons, hf.2.2.2.1]
    simp only [Bool.false_eq_true, if_false, List.nil_append, hdrop]
    split
    · next cs hcs =>
      rw [hhead] at hcs
      injection hcs with h1 _
      exact absurd h1 hf.2.2.2.2.1
    · next cs hcs =>
      rw [hhead] at hcs
      injection hcs with h1 _
      exact absurd h1 hf.2.2.2.2.2.1
    · exact parseUnsigned_natDigits false n hn

theorem decExpAux_spec (fuel : Nat) :
    ∀ (j0 k n g : Nat), 0 < g → 1 ≤ j0 → j0 ≤ k → k < j0 + fuel →
      10 ^ (k - 1) ≤ n → n < 10 ^ k → decExpAux fuel (n * g) g (j0 : Int) = (k : Int) := by
  induction fuel with
  | zero => intro j0 k n g _ _ h1 h2; omega
  | succ fuel ih =>
    intro j0 k n g hg hj0 hle hlt hlo hhi
    unfold decExpAux
    have hneg : ¬ (0 ≤ -(j0 : Int)) := by omega
    have htn : (-(-(j0 : Int))).toNat = j0 := by omega
    simp only [scaleNum, scaleDen, hneg, if_false, htn]
    by_cases hc : n * g < g * 10 ^ j0
    · simp only [hc, if_true]
      have hn : n < 10 ^ j0 := by
        rw [Nat.mul_comm g] at hc
        exact Nat.lt_of_mul_lt_mul_right hc
      have : k - 1 < j0 := (Nat.pow_lt_pow_iff_right (by decide : 1 < 10)).mp
        (lt_of_le_of_lt hlo hn)
      have : k = j0 := by omega
      rw [this]
    · simp only [hc, if_false]
      have hn : 10 ^ j0 ≤ n := by
        by_contra hcon
        apply hc
        rw [Nat.mul_comm g]
        exact Nat.mul_lt_mul_of_pos_right (by omega) hg
      have : j0 < k := (Nat.pow_lt_pow_iff_right (by decide : 1 < 10)).mp
        (lt_of_le_of_lt hn hhi)
      have h := ih (j0 + 1) k n g hg (by omega) (by omega) (by omega) hlo hhi
      rw [← h]
      congr 1

theorem decExp_start_bounds :
    ∀ b : Nat, b < 54 → 10 ≤ b →
      1 ≤ (b - 1) * 30103 / 100000 - 1 ∧
      10 ^ ((b - 1) * 30103 / 100000 - 1 - 1) ≤ 2 ^ (b - 1) ∧
      2 ^ b ≤ 10 ^ ((b - 1) * 30103 / 100000 - 1 + 3) := by
  decide

/-- The decimal exponent of an integer `n` with `1000 ≤ n < 2^53`, held as the fraction
`n * 2^t / 2^t`, is its number of decimal digits. -/
theorem decExp_scaled (n t k : Nat) (h1 : 1000 ≤ n) (h2 : n < 2 ^ 53)
    (hlo : 10 ^ (k - 1) ≤ n) (hhi : n < 10 ^ k) :
    decExp (n * 2 ^ t) (2 ^ t) = (k : Int) := by
  have hn1 : 1 ≤ n := by omega
  obtain ⟨h3, h4⟩ := bitLen_spec n hn1
  have hb53 : bitLen n < 54 := by
    have := (Nat.pow_lt_pow_iff_right (by decide : 1 < 2)).mp (lt_of_le_of_lt h3 h2)
    omega
  have hb10 : 10 ≤ bitLen n := by
    by_contra hc
    have h5 : bitLen n ≤ 9 := by omega
    have h6 : 2 ^ bitLen n ≤ 2 ^ 9 := Nat.pow_le_pow_right (by decide) h5
    have h7 : (2 : Nat) ^ 9 = 512 := by norm_num
    omega
  obtain ⟨hs1, hs2, hs3⟩ := decExp_start_bounds (bitLen n) hb53 hb10
  have hj0k : (bitLen n - 1) * 30103 / 100000 - 1 ≤ k := by
    have := (Nat.pow_lt_pow_iff_right (by decide : 1 < 10)).mp
      (lt_of_le_of_lt (le_trans hs2 h3) hhi)
    omega
  have hkj0 : k < (bitLen n - 1) * 30103 / 100000 - 1 + 4 := by
    have := (Nat.pow_lt_pow_iff_right (by decide : 1 < 10)).mp
      (lt_of_le_of_lt hlo (lt_of_lt_of_le h4 hs3))
    omega
  unfold decExp
  rw [floorLog2_scaled n t hn1]
  have hstart : ((bitLen n : Int) - 1) * 30103 / 100000 - 1 =
      (((bitLen n - 1) * 30103 / 100000 - 1 : Nat) : Int) := by
    omega
  rw [hstart]
  exact decExpAux_spec 4 _ k n (2 ^ t) (Nat.two_pow_pos t) hs1 hj0k hkj0 hlo hhi

theorem scale_facts (a : Nat) (i k : Nat) (h : i ≤ k) :
    scaleNum a ((i : Int) - k) = a ∧ scaleDen a ((i : Int) - k) = a * 10 ^ (k - i) ∧
    scaleNum a (-((i : Int) - k)) = a * 10 ^ (k - i) ∧ scaleDen a (-((i : Int) - k)) = a := by
  have h3 : (0 : Int) ≤ -((i : Int) - k) := by omega
  have h4 : (-((i : Int) - k)).toNat = k - i := by omega
  by_cases hik : i = k
  · subst hik
    simp [scaleNum, scaleDen]
  · have h1 : ¬ (0 : Int) ≤ (i : Int) - k := by omega
    simp only [scaleNum, scaleDen, h1, h3, h4, if_true, if_false, and_self]

/-- For an integer `n < 2^53` with `k` decimal digits, held as `n * g / g`, the `i`-digit
candidate of the shortest-digits search exists exactly when `n` is a multiple of
`10^(k-i)`, and is then `n / 10^(k-i)`. -/
theorem shortestAt_integer (n g k i : Nat) (hg : 0 < g) (h1 : 1 ≤ n) (h2 : n < 2 ^ 53)
    (hhi : n < 10 ^ k) (hik : i ≤ k) :
    shortestAt (roundQ false n 1) (n * g) g (k : Int) i =
      if n % 10 ^ (k - i) = 0 then some (n / 10 ^ (k - i), (k : Int)) else none := by
  have hP : 0 < 10 ^ (k - i) := Nat.pow_pos (by decide)
  obtain ⟨s1, s2, s3, s4⟩ := scale_facts (n * g) i k hik
  have hlo : n * g / (g * 10 ^ (k - i)) = n / 10 ^ (k - i) := by
    rw [Nat.mul_comm n g]
    exact Nat.mul_div_mul_left _ _ hg
  have hhiNe : roundQ false ((n / 10 ^ (k - i) + 1) * 10 ^ (k - i)) 1 ≠ roundQ false n 1 := by
    intro heq
    have := roundQ_injective _ n h1 h2 heq
    have h5 := Nat.div_add_mod n (10 ^ (k - i))
    have h6 := Nat.mod_lt n hP
    have h7 : (n / 10 ^ (k - i) + 1) * 10 ^ (k - i) =
        10 ^ (k - i) * (n / 10 ^ (k - i)) + 10 ^ (k - i) := by ring
    omega
  have hloIff : roundQ false (n / 10 ^ (k - i) * 10 ^ (k - i)) 1 = roundQ false n 1 ↔
      n % 10 ^ (k - i) = 0 := by
    constructor
    · intro heq
      have := roundQ_injective _ n h1 h2 heq
      have h5 := Nat.div_add_mod n (10 ^ (k - i))
      have h7 : n / 10 ^ (k - i) * 10 ^ (k - i) = 10 ^ (k - i) * (n / 10 ^ (k - i)) := by ring
      omega
    · intro hmod
      have h5 := Nat.div_add_mod n (10 ^ (k - i))
      have h7 : n / 10 ^ (k - i) * 10 ^ (k - i) = n := by
        rw [Nat.mul_comm]
        omega
      rw [h7]
  have hsmall : n / 10 ^ (k - i) ≠ 10 ^ i := by
    intro heq
    have h5 : 10 ^ i * 10 ^ (k - i) ≤ n := by
      rw [← heq]
      exact Nat.div_mul_le_self n _
    rw [← pow_add] at h5
    have h6 : i + (k - i) = k := by omega
    rw [h6] at h5
    omega
  unfold shortestAt
  obtain ⟨t1, t2, t3, t4⟩ := scale_facts (n / 10 ^ (k - i)) i k hik
  obtain ⟨u1, u2, u3, u4⟩ := scale_facts (n / 10 ^ (k - i) + 1) i k hik
  obtain ⟨v1, v2, v3, v4⟩ := scale_facts 1 i k hik
  obtain ⟨w1, w2, w3, w4⟩ := scale_facts g i k hik
  simp only [s1, w2, hlo, t3, u3, v4, hhiNe, decide_False, Bool.and_false, hloIff]
  by_cases hmod : n % 10 ^ (k - i) = 0
  · simp [hmod, hsmall]
  · simp [hmod]

theorem shortestAux_integer (n g k : Nat) (hg : 0 < g) (h1 : 1 ≤ n) (h2 : n < 2 ^ 53)
    (hhi : n < 10 ^ k) (fuel : Nat) :
    ∀ i, i ≤ k → k - i < fuel →
      ∃ i', i ≤ i' ∧ i' ≤ k ∧ n % 10 ^ (k - i') = 0 ∧
        shortestAux fuel (roundQ false n 1) (n * g) g (k : Int) i =
          (n / 10 ^ (k - i'), (k : Int)) := by
  induction fuel with
  | zero => intro i _ h; omega
  | succ fuel ih =>
    intro i hik hfuel
    unfold shortestAux
    rw [shortestAt_integer n g k i hg h1 h2 hhi hik]
    by_cases hmod : n % 10 ^ (k - i) = 0
    · simp only [hmod, if_true]
      exact ⟨i, le_refl i, hik, hmod, rfl⟩
    · simp only [hmod, if_false]
      have hlt : i < k := by
        by_contra hc
        have : k - i = 0 := by omega
        rw [this] at hmod
        simp [Nat.mod_one] at hmod
      obtain ⟨i', h3, h4, h5, h6⟩ := ih (i + 1) (by omega) (by omega)
      exact ⟨i', by omega, h4, h5, h6⟩

theorem mag_exact (n : Nat) (hb : bitLen n ≤ 53) :
    magNum (n * 2 ^ (53 - bitLen n)) ((bitLen n : Int) - 53) = n * 2 ^ (53 - bitLen n) ∧
    magDen ((bitLen n : Int) - 53) = 2 ^ (53 - bitLen n) := by
  by_cases h : bitLen n = 53
  · simp [magNum, magDen, h]
  · have h1 : ¬ (0 : Int) ≤ (bitLen n : Int) - 53 := by omega
    have h2 : (-((bitLen n : Int) - 53)).toNat = 53 - bitLen n := by omega
    simp [magNum, magDen, h1, h2]

/-- The shortest digits of an integer `n` with `1000 ≤ n < 2^53` and `k` decimal digits are
those of `n` without its trailing zeros: `s = n / 10^z` with `n` a multiple of `10^z`, and the
decimal exponent is `k`. -/
theorem shortest_integer (n k : Nat) (h1 : 1000 ≤ n) (h2 : n < 2 ^ 53)
    (hlo : 10 ^ (k - 1) ≤ n) (hhi : n < 10 ^ k) (hk : 1 ≤ k) :
    ∃ z, z < k ∧ n % 10 ^ z = 0 ∧
      shortest (n * 2 ^ (53 - bitLen n)) ((bitLen n : Int) - 53) = (n / 10 ^ z, (k : Int)) := by
  have hn1 : 1 ≤ n := by omega
  have hb53 : bitLen n ≤ 53 := by
    obtain ⟨h3, _⟩ := bitLen_spec n hn1
    have := (Nat.pow_lt_pow_iff_right (by decide : 1 < 2)).mp (lt_of_le_of_lt h3 h2)
    omega
  have hk16 : k ≤ 16 := by
    have h16 : (2 : Nat) ^ 53 < 10 ^ 16 := by norm_num
    have := (Nat.pow_lt_pow_iff_right (by decide : 1 < 10)).mp
      (lt_of_le_of_lt hlo (lt_trans h2 h16))
    omega
  obtain ⟨m1, m2⟩ := mag_exact n hb53
  unfold shortest
  rw [m1, m2, decExp_scaled n _ k h1 h2 hlo hhi, ← roundQ_exact false n hn1 h2]
  obtain ⟨i', h3, h4, h5, h6⟩ :=
    shortestAux_integer n (2 ^ (53 - bitLen n)) k (Nat.two_pow_pos _) hn1 h2 hhi 17 1 hk
      (by omega)
  exact ⟨k - i', by omega, h5, h6⟩

theorem toLocaleString_integer (neg : Bool) (n : Nat) (h1 : 1000 ≤ n) (h2 : n < 2 ^ 53) :
    (roundQ neg n 1).toLocaleString =
      ⟨(if neg then ['-'] else []) ++ groupThousands (natDigits n)⟩ := by
  have hn1 : 1 ≤ n := by omega
  obtain ⟨k, hk1, hlo, hhi, _, _, _⟩ := natDigits_spec n hn1
  obtain ⟨z, hz, hmod, hshort⟩ := shortest_integer n k h1 h2 hlo hhi hk1
  have hPz : 0 < 10 ^ z := Nat.pow_pos (by decide)
  have hsz : n / 10 ^ z * 10 ^ z = n := Nat.div_mul_cancel (Nat.dvd_of_mod_eq_zero hmod)
  have hs1 : 1 ≤ n / 10 ^ z :=
    Nat.div_pos (le_trans (Nat.pow_le_pow_right (by decide) (by omega)) hlo) hPz
  obtain ⟨k', hk'1, hlo', hhi', hlen, _, _⟩ := natDigits_spec (n / 10 ^ z) hs1
  have hk' : k' + z = k := by
    have e1 : 10 ^ (k' - 1 + z) ≤ n := by
      rw [pow_add, ← hsz]
      exact Nat.mul_le_mul_right _ hlo'
    have e2 : n < 10 ^ (k' + z) := by
      rw [pow_add, ← hsz]
      exact Nat.mul_lt_mul_of_pos_right hhi' hPz
    have e3 := (Nat.pow_lt_pow_iff_right (by decide : 1 < 10)).mp (lt_of_le_of_lt e1 hhi)
    have e4 := (Nat.pow_lt_pow_iff_right (by decide : 1 < 10)).mp (lt_of_le_of_lt hlo e2)
    omega
  have hm0 : n * 2 ^ (53 - bitLen n) ≠ 0 :=
    Nat.mul_ne_zero (by omega) (Nat.pos_iff_ne_zero.mp (Nat.two_pow_pos _))
  have hfd : ((k' : Int) - (k : Int)) ≤ 8 := by omega
  have hexp : (8 - ((k' : Int) - (k : Int))).toNat = 8 + z := by omega
  have ht : n / 10 ^ z * 10 ^ (8 + z) = n * 10 ^ 8 := by
    rw [Nat.add_comm 8 z, pow_add, ← Nat.mul_assoc, hsz]
  have hfrac : ((List.replicate (8 - (natDigits 0).length) '0' ++ natDigits 0).reverse.dropWhile
      (· = '0')).reverse = [] := by decide
  have hdiv : n * 10 ^ 8 / 10 ^ 8 = n := Nat.mul_div_cancel _ (Nat.pow_pos (by decide))
  have hmod8 : n * 10 ^ 8 % 10 ^ 8 = 0 := Nat.mul_mod_left _ _
  rw [roundQ_exact neg n hn1 h2]
  simp only [Num.toLocaleString, hm0, if_false, hshort, hlen, hfd, if_true, hexp, ht, hdiv,
    hmod8, hfrac, List.append_nil]

/-- On the decimal text of an integer `n` with `1000 ≤ n < 2^53`, with or without a minus
sign, `formatNumber` gives the digits of `n` with thousands separators. -/
theorem formatNumber_integer (neg : Bool) (n : Nat) (h1 : 1000 ≤ n) (h2 : n < 2 ^ 53) :
    formatNumber ⟨(if neg then ['-'] else []) ++ natDigits n⟩ =
      ⟨(if neg then ['-'] else []) ++ groupThousands (natDigits n)⟩ := by
  have hn1 : 1 ≤ n := by omega
  have hb53 : bitLen n ≤ 53 := by
    obtain ⟨h3, _⟩ := bitLen_spec n hn1
    have := (Nat.pow_lt_pow_iff_right (by decide : 1 < 2)).mp (lt_of_le_of_lt h3 h2)
    omega
  obtain ⟨m1, m2⟩ := mag_exact n hb53
  have hge : (roundQ neg n 1).absGe 1000 = true := by
    rw [roundQ_exact neg n hn1 h2]
    simp only [Num.absGe, m1, m2, decide_eq_true_eq]
    exact Nat.mul_le_mul_right _ h1
  have hnan : (roundQ neg n 1).isNaN = false := by
    rw [roundQ_exact neg n hn1 h2]
    rfl
  unfold formatNumber
  simp only [parseFloat_integer neg n hn1, hnan, hge, if_true, Bool.false_eq_true, if_false]
  exact toLocaleString_integer neg n h1 h2

theorem groupRev_snoc (r : List Char) (c : Char) :
    groupRev (r ++ [c]) =
      if r.length % 3 = 0 ∧ r ≠ [] then groupRev r ++ [',', c] else groupRev r ++ [c] := by
  induction r using groupRev.induct with
  | case1 a b d => simp [groupRev]
  | case2 a b d x rest ih =>
    have h1 : (a :: b :: d :: x :: rest) ++ [c] = a :: b :: d :: (x :: (rest ++ [c])) := rfl
    have h2 : (x :: rest) ++ [c] = x :: (rest ++ [c]) := rfl
    rw [h1]
    simp only [groupRev]
    rw [← h2, ih]
    have hl : (a :: b :: d :: x :: rest).length % 3 = (x :: rest).length % 3 := by
      simp only [List.length_cons]
      omega
    rw [hl]
    split_ifs <;> simp_all
  | case3 l h =>
    rcases l with _ | ⟨a, _ | ⟨b, _ | ⟨d, rest⟩⟩⟩
    · simp [groupRev]
    · simp [groupRev]
    · simp [groupRev]
    · exact absurd rfl (h a b d rest)

theorem groupThousands_eq_commaSeparated (ds : List Char) :
    groupThousands ds = commaSeparated ds := by
  induction ds with
  | nil => simp [groupThousands, groupRev, commaSeparated]
  | cons c cs ih =>
    unfold groupThousands at ih ⊢
    rw [List.reverse_cons, groupRev_snoc, commaSeparated]
    rw [List.length_reverse]
    by_cases h : cs.length % 3 = 0 ∧ cs ≠ []
    · have h' : cs.length % 3 = 0 ∧ cs.reverse ≠ [] := ⟨h.1, by simpa using h.2⟩
      rw [if_pos h, if_pos h']
      simp [ih]
    · have h' : ¬ (cs.length % 3 = 0 ∧ cs.reverse ≠ []) := by
        intro hc
        exact h ⟨hc.1, by simpa using hc.2⟩
      rw [if_neg h, if_neg h']
      simp [ih]

/-- C18 as stated fails: `"9007199254740993"` is the text of the integer `2^53 + 1`, which
`parseFloat` rounds to `2^53`; `formatNumber` returns `"9,007,199,254,740,992"`, not the digits
of the input grouped in threes, `"9,007,199,254,740,993"`. -/
theorem C18_large_integer_digits_change :
    integerText false 9007199254740993 = "9007199254740993" ∧
    groupedText false 9007199254740993 = "9,007,199,254,740,993" ∧
    formatNumber "9007199254740993" = "9,007,199,254,740,992" ∧
    formatNumber (integerText false 9007199254740993) ≠ groupedText false 9007199254740993 :=
  ⟨by decide!, by decide!, by decide!, by decide!⟩

/-- C18, amended: `formatNumber` returns its input unchanged when the input does not parse to
a number or parses to one of magnitude below 1000; and on the decimal text of an integer of
magnitude at least 1000 and at most `2^53` (with or without a minus sign) it returns the
digits of that integer grouped in threes with commas; `"1234567"` gives `"1,234,567"`. -/
theorem C18_formatNumber (s : String) (neg : Bool) (n : Nat)
    (h1 : 1000 ≤ n) (h2 : n ≤ 2 ^ 53) :
    ((parseFloat s).isNaN = true ∨ (parseFloat s).absGe 1000 = false → formatNumber s = s) ∧
    formatNumber (integerText neg n) = groupedText neg n ∧
    formatNumber "1234567" = "1,234,567" := by
  refine ⟨?_, ?_, by decide!⟩
  · intro h
    unfold formatNumber
    rcases h with h | h
    · simp [h]
    · simp [h]
  · unfold integerText groupedText
    rw [← groupThousands_eq_commaSeparated]
    rcases Nat.lt_or_eq_of_le h2 with h3 | h3
    · exact formatNumber_integer neg n h1 h3
    · subst h3
      cases neg
      · decide!
      · decide!

/-- C18 amended, at `"999"` (below 1000, returned as it is) and at the integers `1234567` and
`-1234567`. -/
theorem C18_formatNumber_witness :
    formatNumber "999" = "999" ∧
    formatNumber "1234567" = "1,234,567" ∧
    formatNumber "-1234567" = "-1,234,567" :=
  ⟨(C18_formatNumber "999" false 1234567 (by decide) (by decide)).1 (Or.inr (by decide!)),
   (by decide! : integerText false 1234567 = "1234567") ▸
     (by decide! : groupedText false 1234567 = "1,234,567") ▸
       (C18_formatNumber "999" false 1234567 (by decide) (by decide)).2.1,
   (by decide! : integerText true 1234567 = "-1234567") ▸
     (by decide! : groupedText true 1234567 = "-1,234,567") ▸
       (C18_formatNumber "999" true 1234567 (by decide) (by decide)).2.1⟩

end Calc
